import Mathlib

/-!
Verification development for the backtesting core of the NATGAS-trader
repository (`src/backtesting/core/backtest_engine.py`).

Modelling conventions:
* Python floats are modelled as rationals (`ℚ`); `numpy` std/sqrt land in `ℝ`.
* `datetime` values are modelled as natural-number day ordinals.
* Pandas price DataFrames (columns `timestamp`, `price`) are lists of pairs.
* Python dicts are insertion-ordered association lists with the helper
  operations `dictGet`, `dictSet`, `dictDel`, `dictContains` below.
* `int(x)` on a float is truncation toward zero (`pyInt`).
-/

namespace NatgasTrader

/-- String constant for the BUY action. -/
def BUY : String := "BUY"

/-- String constant for the SELL action. -/
def SELL : String := "SELL"

/-- String constant for the HOLD action. -/
def HOLD : String := "HOLD"

/-- Trade reason attached to signal-driven entries and same-symbol refreshes. -/
def SIGNAL : String := "SIGNAL"

/-- Trade reason attached to stop-loss closes. -/
def STOP_LOSS : String := "STOP_LOSS"

/-- Trade reason attached to take-profit closes. -/
def TAKE_PROFIT : String := "TAKE_PROFIT"

/-- Trade reason attached to trailing-stop closes. -/
def TRAILING_STOP : String := "TRAILING_STOP"

/-- Trade reason attached to mutual-exclusivity closes. -/
def MUTUAL_EXCLUSIVITY : String := "MUTUAL_EXCLUSIVITY"

/-- Trade reason the source attaches to end-of-run liquidations. -/
def END_OF_BACKTEST : String := "END_OF_BACKTEST"

/-- Trade reason named by the specification for end-of-run liquidations. -/
def END_OF_SIMULATION : String := "END_OF_SIMULATION"

/-- Default primary symbol of the backtest engine. -/
def UNG : String := "UNG"

/-- Default inverse symbol of the backtest engine. -/
def KOLD : String := "KOLD"

/-- Python dict read: first entry with the given key (dicts hold each key once). -/
def dictGet (l : List (String × α)) (k : String) : Option α :=
  (l.find? (fun p => decide (p.1 = k))).map (fun p => p.2)

/-- Python `k in d` membership test. -/
def dictContains (l : List (String × α)) (k : String) : Bool :=
  (l.find? (fun p => decide (p.1 = k))).isSome

/-- Python dict write: replace in place if present, else append (insertion order). -/
def dictSet (l : List (String × α)) (k : String) (v : α) : List (String × α) :=
  if dictContains l k then l.map (fun p => if p.1 = k then (k, v) else p)
  else l ++ [(k, v)]

/-- Python `del d[k]`. -/
def dictDel (l : List (String × α)) (k : String) : List (String × α) :=
  l.filter (fun p => decide (p.1 ≠ k))

/-- Python `int()` applied to a rational: truncation toward zero. -/
def pyInt (q : ℚ) : ℤ :=
  q.num.tdiv q.den

/-- Python truthiness of an optional float (`None` and `0.0` are falsy). -/
def truthyPrice : Option ℚ → Bool
  | none => false
  | some p => decide (p ≠ 0)

/-- The `Trade` dataclass of `backtest_engine.py`. -/
structure Trade where
  timestamp : ℕ
  symbol : String
  action : String
  quantity : ℤ
  price : ℚ
  value : ℚ
  signal_strength : ℚ
  confidence : ℚ
  reason : String
deriving Repr, DecidableEq

/-- The `Position` dataclass of `backtest_engine.py`. -/
structure Position where
  symbol : String
  quantity : ℤ
  avg_price : ℚ
  current_value : ℚ
  unrealized_pnl : ℚ
  entry_date : ℕ
deriving Repr, DecidableEq

/-- One entry of `self.active_stops` (a Python dict used as a record). The
`trailing_stop_price` key is absent until the trailing stop is activated. -/
structure StopInfo where
  entry_price : ℚ
  stop_loss_price : ℚ
  take_profit_price : ℚ
  entry_date : ℕ
  trailing_stop : Bool
  trailing_stop_price : Option ℚ
deriving Repr, DecidableEq

/-- The slice of a signal object the engine reads: `timestamp`, `action`,
`symbol`, `total_signal`, `confidence`. -/
structure Signal where
  timestamp : ℕ
  symbol : String
  action : String
  total_signal : ℚ
  confidence : ℚ
deriving Repr, DecidableEq

/-- The configuration attributes `BacktestEngine.__init__` reads. -/
structure Config where
  initial_capital : ℚ
  base_position_size : ℚ
  max_position_size : ℚ
  min_position_size : ℚ
  default_stop_loss_pct : ℚ
  trailing_stop_pct : ℚ
  take_profit_pct : ℚ
  commission_per_trade : ℚ
  slippage_pct : ℚ
  symbol : String
  inverse_symbol : String
deriving Repr, DecidableEq

/-- The mutable state of a `BacktestEngine` instance. -/
structure EngineState where
  current_capital : ℚ
  positions : List (String × Position)
  trades : List Trade
  daily_portfolio_values : List (ℕ × ℚ)
  active_stops : List (String × StopInfo)
deriving Repr, DecidableEq

/-- `_reset_state`. -/
def reset_state (cfg : Config) : EngineState :=
  { current_capital := cfg.initial_capital, positions := [], trades := [],
    daily_portfolio_values := [], active_stops := [] }

/-- `_get_price_for_date`: exact-date match first (first matching row), else the
most recent row at or before the date, else `None`. -/
def get_price_for_date (price_df : List (ℕ × ℚ)) (current_date : ℕ) : Option ℚ :=
  match price_df.find? (fun r => decide (r.1 = current_date)) with
  | some r => some r.2
  | none => ((price_df.filter (fun r => decide (r.1 ≤ current_date))).getLast?).map (fun r => r.2)

/-- `_get_signal_for_date`: first signal whose timestamp matches the date. -/
def get_signal_for_date (signals : List Signal) (current_date : ℕ) : Option Signal :=
  signals.find? (fun s => decide (s.timestamp = current_date))

/-- `_calculate_portfolio_value`: cash plus each position valued at today's
price for its instrument (positions in neither configured symbol are skipped). -/
def calculate_portfolio_value (cfg : Config) (st : EngineState)
    (ung_price kold_price : ℚ) : ℚ :=
  st.positions.foldl (fun total p =>
    if p.1 = cfg.symbol then total + (p.2.quantity : ℚ) * ung_price
    else if p.1 = cfg.inverse_symbol then total + (p.2.quantity : ℚ) * kold_price
    else total) st.current_capital

/-- `_calculate_position_size`: base size scaled by signal strength (divisor is
the hard-coded constant 0.5, capped at 2.0) and by remaining-capital fraction,
clamped to the configured minimum/maximum. -/
def calculate_position_size (cfg : Config) (st : EngineState) (signal : Signal) : ℚ :=
  let signal_multiplier := min (|signal.total_signal| / (1 / 2)) 2
  let capital_factor := min (st.current_capital / cfg.initial_capital) 1
  let position_size := cfg.base_position_size * signal_multiplier * capital_factor
  max cfg.min_position_size (min position_size cfg.max_position_size)

/-- `_setup_stop_loss`: store a fresh stop record for the symbol, trailing
inactive and no trailing price yet. -/
def setup_stop_loss (cfg : Config) (st : EngineState) (symbol : String)
    (entry_price : ℚ) (entry_date : ℕ) : EngineState :=
  let si : StopInfo :=
    { entry_price := entry_price,
      stop_loss_price := entry_price * (1 - cfg.default_stop_loss_pct),
      take_profit_price := entry_price * (1 + cfg.take_profit_pct),
      entry_date := entry_date, trailing_stop := false,
      trailing_stop_price := none }
  { st with active_stops := dictSet st.active_stops symbol si }

/-- `_close_position`: sell the whole position at the quoted price less
slippage, credit proceeds minus commission, drop the position and its stop,
append a SELL trade with the triggering reason. -/
def close_position (cfg : Config) (st : EngineState) (symbol : String)
    (current_date : ℕ) (current_price : ℚ) (reason : String) : EngineState :=
  match dictGet st.positions symbol with
  | none => st
  | some position =>
    let actual_price := current_price * (1 - cfg.slippage_pct)
    let actual_value := (position.quantity : ℚ) * actual_price
    let trade : Trade :=
      { timestamp := current_date, symbol := symbol, action := SELL,
        quantity := position.quantity, price := actual_price,
        value := actual_value, signal_strength := 0, confidence := 0,
        reason := reason }
    { st with
      trades := st.trades ++ [trade],
      current_capital := st.current_capital + actual_value - cfg.commission_per_trade,
      positions := dictDel st.positions symbol,
      active_stops := dictDel st.active_stops symbol }

/-- `_execute_boil_buy`: close the inverse position (mutual exclusivity), close
any same-symbol position (signal refresh), size the order, run the three
rejection checks against the pre-slippage notional, then execute with slippage
and commission and create the position and its stop. -/
def execute_boil_buy (cfg : Config) (st : EngineState) (signal : Signal)
    (current_date : ℕ) (ung_price kold_price : ℚ) : EngineState :=
  let st1 := if dictContains st.positions cfg.inverse_symbol then
      close_position cfg st cfg.inverse_symbol current_date kold_price MUTUAL_EXCLUSIVITY
    else st
  let st2 := if dictContains st1.positions cfg.symbol then
      close_position cfg st1 cfg.symbol current_date ung_price SIGNAL
    else st1
  let quantity := pyInt (calculate_position_size cfg st2 signal / ung_price)
  if quantity ≤ 0 then st2
  else
    let trade_value := (quantity : ℚ) * ung_price
    if trade_value < 100 then st2
    else if trade_value > st2.current_capital then st2
    else
      let actual_price := ung_price * (1 + cfg.slippage_pct)
      let actual_value := (quantity : ℚ) * actual_price
      let trade : Trade :=
        { timestamp := current_date, symbol := cfg.symbol, action := BUY,
          quantity := quantity, price := actual_price, value := actual_value,
          signal_strength := signal.total_signal,
          confidence := signal.confidence, reason := SIGNAL }
      let pos : Position :=
        { symbol := cfg.symbol, quantity := quantity, avg_price := actual_price,
          current_value := actual_value, unrealized_pnl := 0,
          entry_date := current_date }
      let st3 := { st2 with
        trades := st2.trades ++ [trade],
        current_capital := st2.current_capital - actual_value - cfg.commission_per_trade,
        positions := dictSet st2.positions cfg.symbol pos }
      setup_stop_loss cfg st3 cfg.symbol actual_price current_date

/-- `_execute_kold_buy`: mirror image of `execute_boil_buy` for the inverse
symbol. -/
def execute_kold_buy (cfg : Config) (st : EngineState) (signal : Signal)
    (current_date : ℕ) (ung_price kold_price : ℚ) : EngineState :=
  let st1 := if dictContains st.positions cfg.symbol then
      close_position cfg st cfg.symbol current_date ung_price MUTUAL_EXCLUSIVITY
    else st
  let st2 := if dictContains st1.positions cfg.inverse_symbol then
      close_position cfg st1 cfg.inverse_symbol current_date kold_price SIGNAL
    else st1
  let quantity := pyInt (calculate_position_size cfg st2 signal / kold_price)
  if quantity ≤ 0 then st2
  else
    let trade_value := (quantity : ℚ) * kold_price
    if trade_value < 100 then st2
    else if trade_value > st2.current_capital then st2
    else
      let actual_price := kold_price * (1 + cfg.slippage_pct)
      let actual_value := (quantity : ℚ) * actual_price
      let trade : Trade :=
        { timestamp := current_date, symbol := cfg.inverse_symbol, action := BUY,
          quantity := quantity, price := actual_price, value := actual_value,
          signal_strength := signal.total_signal,
          confidence := signal.confidence, reason := SIGNAL }
      let pos : Position :=
        { symbol := cfg.inverse_symbol, quantity := quantity, avg_price := actual_price,
          current_value := actual_value, unrealized_pnl := 0,
          entry_date := current_date }
      let st3 := { st2 with
        trades := st2.trades ++ [trade],
        current_capital := st2.current_capital - actual_value - cfg.commission_per_trade,
        positions := dictSet st2.positions cfg.inverse_symbol pos }
      setup_stop_loss cfg st3 cfg.inverse_symbol actual_price current_date

/-- `_process_buy_signal`: dispatch on the signal's target symbol. -/
def process_buy_signal (cfg : Config) (st : EngineState) (signal : Signal)
    (current_date : ℕ) (ung_price kold_price : ℚ) : EngineState :=
  if signal.symbol = cfg.symbol then
    execute_boil_buy cfg st signal current_date ung_price kold_price
  else if signal.symbol = cfg.inverse_symbol then
    execute_kold_buy cfg st signal current_date ung_price kold_price
  else st

/-- `_activate_trailing_stop`: mark the stop trailing and set the trailing price
below the current price by the trailing percentage. -/
def activate_trailing_stop (cfg : Config) (st : EngineState) (symbol : String)
    (current_price : ℚ) : EngineState :=
  match dictGet st.active_stops symbol with
  | none => st
  | some si =>
    let tsp := some (current_price * (1 - cfg.trailing_stop_pct))
    let si1 := { si with trailing_stop := true, trailing_stop_price := tsp }
    { st with active_stops := dictSet st.active_stops symbol si1 }

/-- `_update_trailing_stop`: raise the trailing price if the new candidate is
strictly higher (a missing trailing price reads as 0), then close with reason
TRAILING_STOP if the current price is at or below the trailing price. -/
def update_trailing_stop (cfg : Config) (st : EngineState) (symbol : String)
    (current_price : ℚ) (current_date : ℕ) : EngineState :=
  match dictGet st.active_stops symbol with
  | none => st
  | some si =>
    let new_trailing_price := current_price * (1 - cfg.trailing_stop_pct)
    let si1 := if new_trailing_price > si.trailing_stop_price.getD 0
      then { si with trailing_stop_price := some new_trailing_price } else si
    let st1 := { st with active_stops := dictSet st.active_stops symbol si1 }
    if current_price ≤ si1.trailing_stop_price.getD 0 then
      close_position cfg st1 symbol current_date current_price TRAILING_STOP
    else st1

/-- One iteration of the `_check_stop_losses` loop for one snapshot item
`(symbol, stop_info)`. Orphan stops are deleted; then stop-loss, take-profit,
trailing activation and trailing update run in the source's order. The
activation mutates the live dict entry, so the trailing-update guard re-reads
the current stop record. -/
def check_stop_item (cfg : Config) (current_date : ℕ) (ung_price kold_price : ℚ)
    (st : EngineState) (item : String × StopInfo) : EngineState :=
  let symbol := item.1
  let stop_info := item.2
  if ¬ dictContains st.positions symbol then
    { st with active_stops := dictDel st.active_stops symbol }
  else
    let price? : Option ℚ :=
      if symbol = cfg.symbol then some ung_price
      else if symbol = cfg.inverse_symbol then some kold_price
      else none
    match price? with
    | none => st
    | some current_price =>
      if current_price ≤ stop_info.stop_loss_price then
        close_position cfg st symbol current_date current_price STOP_LOSS
      else if current_price ≥ stop_info.take_profit_price then
        close_position cfg st symbol current_date current_price TAKE_PROFIT
      else
        let st1 :=
          if ¬ stop_info.trailing_stop ∧
              (current_price - stop_info.entry_price) / stop_info.entry_price ≥ 1 / 10 then
            activate_trailing_stop cfg st symbol current_price
          else st
        match dictGet st1.active_stops symbol with
        | none => st1
        | some si =>
          if si.trailing_stop then
            update_trailing_stop cfg st1 symbol current_price current_date
          else st1

/-- `_check_stop_losses`: iterate over a snapshot of the active-stop items. -/
def check_stop_losses (cfg : Config) (st : EngineState) (current_date : ℕ)
    (ung_price kold_price : ℚ) : EngineState :=
  st.active_stops.foldl (check_stop_item cfg current_date ung_price kold_price) st

/-- `_process_day`: resolve both prices (skip the whole day if either is
missing), record the portfolio value, evaluate stops, then process a BUY
signal if one exists for the date. -/
def process_day (cfg : Config) (st : EngineState) (current_date : ℕ)
    (signals : List Signal) (ung_df kold_df : List (ℕ × ℚ)) : EngineState :=
  let signal? := get_signal_for_date signals current_date
  match get_price_for_date ung_df current_date, get_price_for_date kold_df current_date with
  | some ung_price, some kold_price =>
    let st1 := { st with daily_portfolio_values := st.daily_portfolio_values ++
        [(current_date, calculate_portfolio_value cfg st ung_price kold_price)] }
    let st2 := check_stop_losses cfg st1 current_date ung_price kold_price
    match signal? with
    | some signal =>
      if signal.action = BUY then
        process_buy_signal cfg st2 signal current_date ung_price kold_price
      else st2
    | none => st2
  | _, _ => st

/-- `_close_all_positions`: resolve final prices and close each remaining
position whose final price is truthy, with reason END_OF_BACKTEST. -/
def close_all_positions (cfg : Config) (st : EngineState)
    (ung_df kold_df : List (ℕ × ℚ)) (end_date : ℕ) : EngineState :=
  let ung_price := get_price_for_date ung_df end_date
  let kold_price := get_price_for_date kold_df end_date
  (st.positions.map (fun p => p.1)).foldl (fun s symbol =>
    if symbol = cfg.symbol ∧ truthyPrice ung_price = true then
      close_position cfg s symbol end_date (ung_price.getD 0) END_OF_BACKTEST
    else if symbol = cfg.inverse_symbol ∧ truthyPrice kold_price = true then
      close_position cfg s symbol end_date (kold_price.getD 0) END_OF_BACKTEST
    else s) st

/-- `run_backtest`: reset, process each day from start to end inclusive, then
force-close remaining positions at the end date. -/
def run_backtest (cfg : Config) (signals : List Signal)
    (ung_df kold_df : List (ℕ × ℚ)) (start_date end_date : ℕ) : EngineState :=
  let days := (List.range (end_date + 1 - start_date)).map (fun i => start_date + i)
  let st := days.foldl (fun s d => process_day cfg s d signals ung_df kold_df)
    (reset_state cfg)
  close_all_positions cfg st ung_df kold_df end_date

/-- Daily returns of `_calculate_results`: consecutive relative changes of the
recorded portfolio values; empty when fewer than two values exist. -/
def daily_returns_of (values : List (ℕ × ℚ)) : List ℚ :=
  (values.zip values.tail).map (fun p => (p.2.2 - p.1.2) / p.1.2)

/-- `_calculate_max_drawdown`: running-peak drawdown over the recorded values,
0 for an empty series. -/
def max_drawdown_of (values : List (ℕ × ℚ)) : ℚ :=
  match values.map (fun v => v.2) with
  | [] => 0
  | v :: vs =>
    ((v :: vs).foldl (fun acc value =>
      let peak := if value > acc.1 then value else acc.1
      (peak, max acc.2 ((peak - value) / peak))) (v, (0 : ℚ))).2

/-- `np.mean` over rationals. -/
def mean_of (rs : List ℚ) : ℚ :=
  rs.sum / (rs.length : ℚ)

/-- Square of `np.std` (population variance). -/
def variance_of (rs : List ℚ) : ℚ :=
  ((rs.map (fun r => (r - mean_of rs) ^ 2)).sum) / (rs.length : ℚ)

/-- `np.std`: population standard deviation, as a real number. -/
noncomputable def std_of (rs : List ℚ) : ℝ :=
  Real.sqrt ((variance_of rs : ℚ) : ℝ)

/-- `_calculate_sharpe_ratio`: 0 for no returns or zero standard deviation,
else annualized mean over standard deviation. -/
noncomputable def sharpe_of (rs : List ℚ) : ℝ :=
  if rs = [] then 0
  else if std_of rs = 0 then 0
  else ((mean_of rs : ℚ) : ℝ) / std_of rs * Real.sqrt 252

/-- The matching pass of `_calculate_trade_stats`: walk the trade log carrying
the open BUY per symbol (later BUYs overwrite), and attach to each SELL that
finds an open BUY the PnL `sell.value - buy.value`. Returns the trades in
order, each with its attached PnL if any. -/
def attach_pnls (trades : List Trade) : List (Trade × Option ℚ) :=
  (trades.foldl (fun acc trade =>
    if trade.action = BUY then
      (acc.1 ++ [(trade, none)], dictSet acc.2 trade.symbol trade)
    else if trade.action = SELL ∧ dictContains acc.2 trade.symbol = true then
      match dictGet acc.2 trade.symbol with
      | some buy_trade =>
        (acc.1 ++ [(trade, some (trade.value - buy_trade.value))],
          dictDel acc.2 trade.symbol)
      | none => (acc.1 ++ [(trade, none)], acc.2)
    else (acc.1 ++ [(trade, none)], acc.2))
    (([] : List (Trade × Option ℚ)), ([] : List (String × Trade)))).1

/-- `_calculate_trade_stats`: win rate, average win, average loss and profit
factor over the completed round-trips; all 0 for an empty log or no completed
round-trip; profit factor is `⊤` (float infinity) when there is no loss. -/
def trade_stats (trades : List Trade) : ℚ × ℚ × ℚ × WithTop ℚ :=
  if trades = [] then (0, 0, 0, 0)
  else
    let completed := (attach_pnls trades).filterMap (fun p => p.2)
    if completed = [] then (0, 0, 0, 0)
    else
      let wins := completed.filter (fun pnl => decide (pnl > 0))
      let losses := completed.filter (fun pnl => decide (pnl < 0))
      let win_rate : ℚ := (wins.length : ℚ) / (completed.length : ℚ)
      let avg_win : ℚ := if wins = [] then 0 else wins.sum / (wins.length : ℚ)
      let avg_loss : ℚ := if losses = [] then 0 else losses.sum / (losses.length : ℚ)
      let profit_factor : WithTop ℚ :=
        if |losses.sum| > 0 then ((wins.sum / |losses.sum| : ℚ) : WithTop ℚ) else ⊤
      (win_rate, avg_win, avg_loss, profit_factor)

/-- The engine's default configuration (`getattr` defaults in
`BacktestEngine.__init__`). -/
def cfg0 : Config :=
  { initial_capital := 100000, base_position_size := 1000,
    max_position_size := 5000, min_position_size := 100,
    default_stop_loss_pct := 1 / 20, trailing_stop_pct := 3 / 100,
    take_profit_pct := 3 / 20, commission_per_trade := 1,
    slippage_pct := 1 / 1000, symbol := UNG, inverse_symbol := KOLD }

/-- Default configuration with initial capital 100. -/
def cfg100 : Config :=
  { cfg0 with initial_capital := 100 }

/-- A day-0 BUY signal for the primary symbol with total signal 0.5 (signal
multiplier exactly 1). -/
def sigBuyHalf : Signal :=
  { timestamp := 0, symbol := UNG, action := BUY, total_signal := 1 / 2,
    confidence := 1 }

/-- A day-0 BUY signal for the primary symbol with total signal 0.05 (signal
multiplier 0.1, sized up to the 100-dollar minimum). -/
def sigBuySmall : Signal :=
  { timestamp := 0, symbol := UNG, action := BUY, total_signal := 1 / 20,
    confidence := 1 }

/-- Day-0 price table quoting the primary instrument at 100. -/
def ungDf0 : List (ℕ × ℚ) := [(0, 100)]

/-- Day-0 price table quoting the inverse instrument at 50. -/
def koldDf0 : List (ℕ × ℚ) := [(0, 50)]

/-! ### Derived definitions used by the verification -/

/-- The SELL trade `close_position` appends (slippage applied against the
seller). -/
def closeTrade (cfg : Config) (symbol : String) (current_date : ℕ)
    (current_price : ℚ) (reason : String) (pos : Position) : Trade :=
  { timestamp := current_date, symbol := symbol, action := SELL,
    quantity := pos.quantity, price := current_price * (1 - cfg.slippage_pct),
    value := (pos.quantity : ℚ) * (current_price * (1 - cfg.slippage_pct)),
    signal_strength := 0, confidence := 0, reason := reason }

/-- The BUY trade an accepted buy order appends (slippage applied against the
buyer). -/
def buyTrade (cfg : Config) (sig : Signal) (d : ℕ) (symbol : String)
    (price : ℚ) (q : ℤ) : Trade :=
  { timestamp := d, symbol := symbol, action := BUY, quantity := q,
    price := price * (1 + cfg.slippage_pct),
    value := (q : ℚ) * (price * (1 + cfg.slippage_pct)),
    signal_strength := sig.total_signal, confidence := sig.confidence,
    reason := SIGNAL }

/-- The position an accepted buy order creates. -/
def buyPosition (cfg : Config) (d : ℕ) (symbol : String) (price : ℚ)
    (q : ℤ) : Position :=
  { symbol := symbol, quantity := q,
    avg_price := price * (1 + cfg.slippage_pct),
    current_value := (q : ℚ) * (price * (1 + cfg.slippage_pct)),
    unrealized_pnl := 0, entry_date := d }

/-- The closing prelude of `_execute_boil_buy`: mutual-exclusivity close of the
inverse position, then signal-refresh close of the primary position. -/
def boil_pre (cfg : Config) (st : EngineState) (current_date : ℕ)
    (ung_price kold_price : ℚ) : EngineState :=
  let st1 := if dictContains st.positions cfg.inverse_symbol then
      close_position cfg st cfg.inverse_symbol current_date kold_price MUTUAL_EXCLUSIVITY
    else st
  if dictContains st1.positions cfg.symbol then
    close_position cfg st1 cfg.symbol current_date ung_price SIGNAL
  else st1

/-- The closing prelude of `_execute_kold_buy`. -/
def kold_pre (cfg : Config) (st : EngineState) (current_date : ℕ)
    (ung_price kold_price : ℚ) : EngineState :=
  let st1 := if dictContains st.positions cfg.symbol then
      close_position cfg st cfg.symbol current_date ung_price MUTUAL_EXCLUSIVITY
    else st
  if dictContains st1.positions cfg.inverse_symbol then
    close_position cfg st1 cfg.inverse_symbol current_date kold_price SIGNAL
  else st1

/-- The common sizing/checks/execution tail of both buy executors. -/
def buy_tail (cfg : Config) (st2 : EngineState) (signal : Signal)
    (current_date : ℕ) (price : ℚ) (symbol : String) : EngineState :=
  let quantity := pyInt (calculate_position_size cfg st2 signal / price)
  if quantity ≤ 0 then st2
  else
    let trade_value := (quantity : ℚ) * price
    if trade_value < 100 then st2
    else if trade_value > st2.current_capital then st2
    else
      let actual_price := price * (1 + cfg.slippage_pct)
      let actual_value := (quantity : ℚ) * actual_price
      let st3 := { st2 with
        trades := st2.trades ++ [buyTrade cfg signal current_date symbol price quantity],
        current_capital := st2.current_capital - actual_value - cfg.commission_per_trade,
        positions := dictSet st2.positions symbol
          (buyPosition cfg current_date symbol price quantity) }
      setup_stop_loss cfg st3 symbol actual_price current_date

/-- The stop-loss / take-profit / trailing chain of one `_check_stop_losses`
iteration, once the day's price for the symbol is in hand. -/
def stop_checks_at (cfg : Config) (current_date : ℕ) (st : EngineState)
    (symbol : String) (stop_info : StopInfo) (current_price : ℚ) : EngineState :=
  if current_price ≤ stop_info.stop_loss_price then
    close_position cfg st symbol current_date current_price STOP_LOSS
  else if current_price ≥ stop_info.take_profit_price then
    close_position cfg st symbol current_date current_price TAKE_PROFIT
  else
    let st1 :=
      if ¬ stop_info.trailing_stop ∧
          (current_price - stop_info.entry_price) / stop_info.entry_price ≥ 1 / 10 then
        activate_trailing_stop cfg st symbol current_price
      else st
    match dictGet st1.active_stops symbol with
    | none => st1
    | some si =>
      if si.trailing_stop then
        update_trailing_stop cfg st1 symbol current_price current_date
      else st1

/-- The optional price `_check_stop_losses` uses for a symbol. -/
def stop_price_for (cfg : Config) (symbol : String) (ung_price kold_price : ℚ) :
    Option ℚ :=
  if symbol = cfg.symbol then some ung_price
  else if symbol = cfg.inverse_symbol then some kold_price
  else none

/-- Stop evaluation for one symbol in the order the specification states.
Modelled from the spec: stop-loss breach, then take-profit breach, then
trailing-stop breach (checked only if the trailing stop is already activated,
with the upward-only ratchet), then trailing-stop activation once unrealized
profit reaches 10%. -/
def stop_eval_spec_order (cfg : Config) (current_date : ℕ) (st : EngineState)
    (symbol : String) (stop_info : StopInfo) (current_price : ℚ) : EngineState :=
  if current_price ≤ stop_info.stop_loss_price then
    close_position cfg st symbol current_date current_price STOP_LOSS
  else if current_price ≥ stop_info.take_profit_price then
    close_position cfg st symbol current_date current_price TAKE_PROFIT
  else if stop_info.trailing_stop then
    update_trailing_stop cfg st symbol current_price current_date
  else if (current_price - stop_info.entry_price) / stop_info.entry_price ≥ 1 / 10 then
    activate_trailing_stop cfg st symbol current_price
  else st

/-- Keys of the position map are limited to the two configured instruments. -/
def PosKeysOk (cfg : Config) (st : EngineState) : Prop :=
  ∀ p ∈ st.positions, p.1 = cfg.symbol ∨ p.1 = cfg.inverse_symbol

/-- The mutual-exclusivity invariant: position keys are the two configured
instruments and at most one position is open. -/
def PosInv (cfg : Config) (st : EngineState) : Prop :=
  PosKeysOk cfg st ∧ st.positions.length ≤ 1

/-- A state that has traded nothing: full initial capital, no positions, no
stops, and every recorded portfolio value equal to the initial capital. -/
def Untraded (cfg : Config) (st : EngineState) : Prop :=
  st.current_capital = cfg.initial_capital ∧ st.positions = [] ∧
    st.active_stops = [] ∧
    ∀ v ∈ st.daily_portfolio_values, v.2 = cfg.initial_capital

/-- A concrete open position in the primary instrument, for end-of-run tests. -/
def posC8 : Position :=
  { symbol := UNG, quantity := 5, avg_price := 100, current_value := 500,
    unrealized_pnl := 0, entry_date := 0 }

/-- A concrete state holding only `posC8`. -/
def stC8 : EngineState :=
  { current_capital := 1000, positions := [(UNG, posC8)], trades := [],
    daily_portfolio_values := [], active_stops := [] }

/-- A concrete open position in the inverse instrument, for end-of-run tests. -/
def posK8 : Position :=
  { symbol := KOLD, quantity := 3, avg_price := 50, current_value := 150,
    unrealized_pnl := 0, entry_date := 0 }

/-- A concrete state holding only `posK8`. -/
def stK8 : EngineState :=
  { current_capital := 1000, positions := [(KOLD, posK8)], trades := [],
    daily_portfolio_values := [], active_stops := [] }

/-- A concrete active trailing stop at trailing price 107. -/
def siT7 : StopInfo :=
  { entry_price := 100, stop_loss_price := 95, take_profit_price := 115,
    entry_date := 0, trailing_stop := true, trailing_stop_price := some 107 }

/-- A concrete state holding `posC8` with the trailing stop `siT7` active. -/
def stT7 : EngineState :=
  { current_capital := 1000, positions := [(UNG, posC8)], trades := [],
    daily_portfolio_values := [], active_stops := [(UNG, siT7)] }

/-- A concrete BUY trade worth 100, for trade-statistics tests. -/
def tbC9 : Trade :=
  { timestamp := 0, symbol := UNG, action := BUY, quantity := 1, price := 100,
    value := 100, signal_strength := 0, confidence := 0, reason := SIGNAL }

/-- A concrete SELL trade worth 150 matching `tbC9`. -/
def tcC9 : Trade :=
  { timestamp := 1, symbol := UNG, action := SELL, quantity := 1, price := 150,
    value := 150, signal_strength := 0, confidence := 0, reason := SIGNAL }

/-! ### Association-list (Python dict) lemmas -/

theorem dictGet_nil (k : String) : dictGet ([] : List (String × α)) k = none := rfl

theorem dictGet_cons (p : String × α) (l : List (String × α)) (k : String) :
    dictGet (p :: l) k = if p.1 = k then some p.2 else dictGet l k := by
  by_cases h : p.1 = k <;> simp [dictGet, List.find?_cons, h]

theorem dictContains_cons (p : String × α) (l : List (String × α)) (k : String) :
    dictContains (p :: l) k = if p.1 = k then true else dictContains l k := by
  by_cases h : p.1 = k <;> simp [dictContains, List.find?_cons, h]

theorem dictContains_eq_isSome (l : List (String × α)) (k : String) :
    dictContains l k = (dictGet l k).isSome := by
  simp [dictContains, dictGet]

theorem dictGet_eq_none_iff (l : List (String × α)) (k : String) :
    dictGet l k = none ↔ ∀ p ∈ l, p.1 ≠ k := by
  induction l with
  | nil => simp [dictGet]
  | cons p t ih =>
    rw [dictGet_cons]
    by_cases h : p.1 = k <;> simp [h, ih]

theorem dictGet_eq_none_of_not_contains (l : List (String × α)) (k : String)
    (h : dictContains l k = false) : dictGet l k = none := by
  rw [dictContains_eq_isSome] at h
  cases hg : dictGet l k with
  | none => rfl
  | some v => rw [hg] at h; simp at h

theorem dictDel_cons (p : String × α) (l : List (String × α)) (k : String) :
    dictDel (p :: l) k = if p.1 = k then dictDel l k else p :: dictDel l k := by
  by_cases h : p.1 = k <;> simp [dictDel, List.filter_cons, h]

theorem dictGet_dictDel_self (l : List (String × α)) (k : String) :
    dictGet (dictDel l k) k = none := by
  induction l with
  | nil => rfl
  | cons p t ih =>
    rw [dictDel_cons]
    by_cases hp : p.1 = k
    · simp [hp, ih]
    · simp [hp, dictGet_cons, ih]

theorem dictGet_dictDel_ne (l : List (String × α)) (k k2 : String) (h : k2 ≠ k) :
    dictGet (dictDel l k) k2 = dictGet l k2 := by
  induction l with
  | nil => rfl
  | cons p t ih =>
    rw [dictDel_cons]
    by_cases hp : p.1 = k
    · have hp2 : ¬ p.1 = k2 := by rw [hp]; exact fun he => h he.symm
      rw [if_pos hp, ih, dictGet_cons, if_neg hp2]
    · rw [if_neg hp, dictGet_cons, dictGet_cons, ih]

theorem mem_dictDel (l : List (String × α)) (k : String) (p : String × α)
    (h : p ∈ dictDel l k) : p ∈ l :=
  List.mem_of_mem_filter h

theorem length_dictDel_le (l : List (String × α)) (k : String) :
    (dictDel l k).length ≤ l.length :=
  List.length_filter_le _ l

theorem dictSet_of_contains (l : List (String × α)) (k : String) (v : α)
    (h : dictContains l k = true) :
    dictSet l k v = l.map (fun p => if p.1 = k then (k, v) else p) := by
  simp [dictSet, h]

theorem dictSet_of_not_contains (l : List (String × α)) (k : String) (v : α)
    (h : dictContains l k = false) : dictSet l k v = l ++ [(k, v)] := by
  simp [dictSet, h]

theorem dictGet_replaceMap_self (l : List (String × α)) (k : String) (v : α)
    (h : dictContains l k = true) :
    dictGet (l.map (fun p => if p.1 = k then (k, v) else p)) k = some v := by
  induction l with
  | nil => simp [dictContains] at h
  | cons p t ih =>
    by_cases hp : p.1 = k
    · simp [List.map_cons, hp, dictGet_cons]
    · rw [dictContains_cons, if_neg hp] at h
      simp [List.map_cons, hp, dictGet_cons, ih h]

theorem dictGet_replaceMap_ne (l : List (String × α)) (k k2 : String) (v : α)
    (h : k2 ≠ k) :
    dictGet (l.map (fun p => if p.1 = k then (k, v) else p)) k2 = dictGet l k2 := by
  induction l with
  | nil => rfl
  | cons p t ih =>
    rw [List.map_cons]
    by_cases hp : p.1 = k
    · have hk : ¬ (k = k2) := fun he => h he.symm
      have hp2 : ¬ (p.1 = k2) := by rw [hp]; exact hk
      rw [if_pos hp, dictGet_cons, dictGet_cons, if_neg hp2, ih]
      exact if_neg hk
    · rw [if_neg hp, dictGet_cons, dictGet_cons, ih]

theorem dictGet_append_single_self (l : List (String × α)) (k : String) (v : α)
    (h : dictGet l k = none) : dictGet (l ++ [(k, v)]) k = some v := by
  induction l with
  | nil => simp [dictGet_cons]
  | cons p t ih =>
    rw [dictGet_cons] at h
    by_cases hp : p.1 = k
    · simp [hp] at h
    · rw [if_neg hp] at h
      simp [List.cons_append, dictGet_cons, hp, ih h]

theorem dictGet_append_single_ne (l : List (String × α)) (k k2 : String) (v : α)
    (h : k2 ≠ k) : dictGet (l ++ [(k, v)]) k2 = dictGet l k2 := by
  induction l with
  | nil =>
    have hk : ¬ (k = k2) := fun he => h he.symm
    rw [List.nil_append, dictGet_cons, if_neg hk]
  | cons p t ih =>
    rw [List.cons_append, dictGet_cons, dictGet_cons, ih]

theorem dictGet_dictSet_self (l : List (String × α)) (k : String) (v : α) :
    dictGet (dictSet l k v) k = some v := by
  cases hc : dictContains l k with
  | false =>
    rw [dictSet_of_not_contains l k v hc]
    exact dictGet_append_single_self l k v (dictGet_eq_none_of_not_contains l k hc)
  | true =>
    rw [dictSet_of_contains l k v hc]
    exact dictGet_replaceMap_self l k v hc

theorem dictGet_dictSet_ne (l : List (String × α)) (k k2 : String) (v : α)
    (h : k2 ≠ k) : dictGet (dictSet l k v) k2 = dictGet l k2 := by
  cases hc : dictContains l k with
  | false =>
    rw [dictSet_of_not_contains l k v hc]
    exact dictGet_append_single_ne l k k2 v h
  | true =>
    rw [dictSet_of_contains l k v hc]
    exact dictGet_replaceMap_ne l k k2 v h

theorem mem_dictSet (l : List (String × α)) (k : String) (v : α) (p : String × α)
    (h : p ∈ dictSet l k v) : p = (k, v) ∨ p ∈ l := by
  cases hc : dictContains l k with
  | false =>
    rw [dictSet_of_not_contains l k v hc] at h
    rcases List.mem_append.mp h with h1 | h1
    · exact Or.inr h1
    · exact Or.inl (List.mem_singleton.mp h1)
  | true =>
    rw [dictSet_of_contains l k v hc] at h
    obtain ⟨q, hq, he⟩ := List.mem_map.mp h
    by_cases hqk : q.1 = k
    · rw [if_pos hqk] at he
      exact Or.inl he.symm
    · rw [if_neg hqk] at he
      exact Or.inr (he ▸ hq)

/-! ### Generic fold preservation -/

theorem foldl_preserves {σ α : Type} (P : σ → Prop) (f : σ → α → σ)
    (h : ∀ s a, P s → P (f s a)) :
    ∀ (xs : List α) (s : σ), P s → P (xs.foldl f s) := by
  intro xs
  induction xs with
  | nil => exact fun s hs => hs
  | cons x t ih =>
    intro s hs
    rw [List.foldl_cons]
    exact ih (f s x) (h s x hs)

/-! ### Characterization of `close_position` -/

theorem close_position_of_none (cfg : Config) (st : EngineState) (symbol : String)
    (d : ℕ) (price : ℚ) (reason : String)
    (h : dictGet st.positions symbol = none) :
    close_position cfg st symbol d price reason = st := by
  unfold close_position
  rw [h]

theorem close_position_of_some (cfg : Config) (st : EngineState) (symbol : String)
    (d : ℕ) (price : ℚ) (reason : String) (pos : Position)
    (h : dictGet st.positions symbol = some pos) :
    close_position cfg st symbol d price reason =
      { st with
        trades := st.trades ++ [closeTrade cfg symbol d price reason pos],
        current_capital := st.current_capital +
          (pos.quantity : ℚ) * (price * (1 - cfg.slippage_pct)) -
          cfg.commission_per_trade,
        positions := dictDel st.positions symbol,
        active_stops := dictDel st.active_stops symbol } := by
  unfold close_position closeTrade
  rw [h]

theorem close_position_dpv (cfg : Config) (st : EngineState) (symbol : String)
    (d : ℕ) (price : ℚ) (reason : String) :
    (close_position cfg st symbol d price reason).daily_portfolio_values =
      st.daily_portfolio_values := by
  cases h : dictGet st.positions symbol with
  | none => rw [close_position_of_none cfg st symbol d price reason h]
  | some pos => rw [close_position_of_some cfg st symbol d price reason pos h]

theorem close_position_mem_positions (cfg : Config) (st : EngineState)
    (symbol : String) (d : ℕ) (price : ℚ) (reason : String) (p : String × Position)
    (hp : p ∈ (close_position cfg st symbol d price reason).positions) :
    p ∈ st.positions := by
  cases h : dictGet st.positions symbol with
  | none => rw [close_position_of_none cfg st symbol d price reason h] at hp; exact hp
  | some pos =>
    rw [close_position_of_some cfg st symbol d price reason pos h] at hp
    exact mem_dictDel _ _ _ hp

theorem close_position_length_positions (cfg : Config) (st : EngineState)
    (symbol : String) (d : ℕ) (price : ℚ) (reason : String) (n : ℕ)
    (hn : st.positions.length ≤ n) :
    (close_position cfg st symbol d price reason).positions.length ≤ n := by
  cases h : dictGet st.positions symbol with
  | none => rw [close_position_of_none cfg st symbol d price reason h]; exact hn
  | some pos =>
    rw [close_position_of_some cfg st symbol d price reason pos h]
    exact le_trans (length_dictDel_le _ _) hn

theorem close_position_trades_mono (cfg : Config) (st : EngineState)
    (symbol : String) (d : ℕ) (price : ℚ) (reason : String) :
    ∃ ts, (close_position cfg st symbol d price reason).trades = st.trades ++ ts ∧
      ∀ tr ∈ ts, tr.action = SELL ∧ tr.reason = reason := by
  cases h : dictGet st.positions symbol with
  | none =>
    rw [close_position_of_none cfg st symbol d price reason h]
    exact ⟨[], by simp⟩
  | some pos =>
    rw [close_position_of_some cfg st symbol d price reason pos h]
    exact ⟨[closeTrade cfg symbol d price reason pos], rfl, by
      intro tr htr
      rw [List.mem_singleton] at htr
      subst htr
      exact ⟨rfl, rfl⟩⟩

theorem close_position_stops_other (cfg : Config) (st : EngineState)
    (symbol : String) (d : ℕ) (price : ℚ) (reason : String) (k : String)
    (hk : k ≠ symbol) :
    dictGet (close_position cfg st symbol d price reason).active_stops k =
      dictGet st.active_stops k := by
  cases h : dictGet st.positions symbol with
  | none => rw [close_position_of_none cfg st symbol d price reason h]
  | some pos =>
    rw [close_position_of_some cfg st symbol d price reason pos h]
    exact dictGet_dictDel_ne _ _ _ hk

theorem close_position_positions_other (cfg : Config) (st : EngineState)
    (symbol : String) (d : ℕ) (price : ℚ) (reason : String) (k : String)
    (hk : k ≠ symbol) :
    dictGet (close_position cfg st symbol d price reason).positions k =
      dictGet st.positions k := by
  cases h : dictGet st.positions symbol with
  | none => rw [close_position_of_none cfg st symbol d price reason h]
  | some pos =>
    rw [close_position_of_some cfg st symbol d price reason pos h]
    exact dictGet_dictDel_ne _ _ _ hk

/-! ### Basic lemmas for the trailing-stop operations -/

theorem activate_trailing_stop_positions (cfg : Config) (st : EngineState)
    (symbol : String) (price : ℚ) :
    (activate_trailing_stop cfg st symbol price).positions = st.positions := by
  unfold activate_trailing_stop
  cases dictGet st.active_stops symbol <;> rfl

theorem activate_trailing_stop_trades (cfg : Config) (st : EngineState)
    (symbol : String) (price : ℚ) :
    (activate_trailing_stop cfg st symbol price).trades = st.trades := by
  unfold activate_trailing_stop
  cases dictGet st.active_stops symbol <;> rfl

theorem activate_trailing_stop_dpv (cfg : Config) (st : EngineState)
    (symbol : String) (price : ℚ) :
    (activate_trailing_stop cfg st symbol price).daily_portfolio_values =
      st.daily_portfolio_values := by
  unfold activate_trailing_stop
  cases dictGet st.active_stops symbol <;> rfl

theorem activate_trailing_stop_stops_other (cfg : Config) (st : EngineState)
    (symbol : String) (price : ℚ) (k : String) (hk : k ≠ symbol) :
    dictGet (activate_trailing_stop cfg st symbol price).active_stops k =
      dictGet st.active_stops k := by
  unfold activate_trailing_stop
  cases dictGet st.active_stops symbol with
  | none => rfl
  | some si => exact dictGet_dictSet_ne _ _ _ _ hk

theorem update_trailing_stop_mem_positions (cfg : Config) (st : EngineState)
    (symbol : String) (price : ℚ) (d : ℕ) (p : String × Position)
    (hp : p ∈ (update_trailing_stop cfg st symbol price d).positions) :
    p ∈ st.positions := by
  unfold update_trailing_stop at hp
  cases h : dictGet st.active_stops symbol with
  | none => rw [h] at hp; exact hp
  | some si =>
    rw [h] at hp
    dsimp only at hp
    split at hp <;> split at hp <;>
      first
        | (have hmem := close_position_mem_positions _ _ _ _ _ _ _ hp
           exact hmem)
        | exact hp

theorem update_trailing_stop_length_positions (cfg : Config) (st : EngineState)
    (symbol : String) (price : ℚ) (d : ℕ) :
    (update_trailing_stop cfg st symbol price d).positions.length ≤
      st.positions.length := by
  unfold update_trailing_stop
  cases h : dictGet st.active_stops symbol with
  | none => exact le_rfl
  | some si =>
    dsimp only
    split <;> split <;>
      first
        | exact close_position_length_positions _ _ _ _ _ _ _ le_rfl
        | exact le_rfl

theorem update_trailing_stop_dpv (cfg : Config) (st : EngineState)
    (symbol : String) (price : ℚ) (d : ℕ) :
    (update_trailing_stop cfg st symbol price d).daily_portfolio_values =
      st.daily_portfolio_values := by
  unfold update_trailing_stop
  cases h : dictGet st.active_stops symbol with
  | none => rfl
  | some si =>
    dsimp only
    split <;> split <;>
      first
        | rw [close_position_dpv]
        | rfl

theorem update_trailing_stop_trades_mono (cfg : Config) (st : EngineState)
    (symbol : String) (price : ℚ) (d : ℕ) :
    ∃ ts, (update_trailing_stop cfg st symbol price d).trades = st.trades ++ ts := by
  unfold update_trailing_stop
  cases h : dictGet st.active_stops symbol with
  | none => exact ⟨[], by simp⟩
  | some si =>
    dsimp only
    split <;> split <;>
      first
        | (obtain ⟨ts, hts, _⟩ :=
            close_position_trades_mono cfg _ symbol d price TRAILING_STOP
           exact ⟨ts, hts⟩)
        | exact ⟨[], by simp⟩

theorem update_trailing_stop_stops_other (cfg : Config) (st : EngineState)
    (symbol : String) (price : ℚ) (d : ℕ) (k : String) (hk : k ≠ symbol) :
    dictGet (update_trailing_stop cfg st symbol price d).active_stops k =
      dictGet st.active_stops k := by
  unfold update_trailing_stop
  cases h : dictGet st.active_stops symbol with
  | none => rfl
  | some si =>
    dsimp only
    split <;> split <;>
      first
        | (rw [close_position_stops_other _ _ _ _ _ _ _ hk]
           exact dictGet_dictSet_ne _ _ _ _ hk)
        | exact dictGet_dictSet_ne _ _ _ _ hk

theorem setup_stop_loss_positions (cfg : Config) (st : EngineState)
    (symbol : String) (price : ℚ) (d : ℕ) :
    (setup_stop_loss cfg st symbol price d).positions = st.positions := rfl

theorem setup_stop_loss_trades (cfg : Config) (st : EngineState)
    (symbol : String) (price : ℚ) (d : ℕ) :
    (setup_stop_loss cfg st symbol price d).trades = st.trades := rfl

theorem setup_stop_loss_dpv (cfg : Config) (st : EngineState)
    (symbol : String) (price : ℚ) (d : ℕ) :
    (setup_stop_loss cfg st symbol price d).daily_portfolio_values =
      st.daily_portfolio_values := rfl

/-! ### Decomposition of the buy executors -/

theorem execute_boil_buy_decomp (cfg : Config) (st : EngineState) (sig : Signal)
    (d : ℕ) (up kp : ℚ) :
    execute_boil_buy cfg st sig d up kp =
      buy_tail cfg (boil_pre cfg st d up kp) sig d up cfg.symbol := rfl

theorem execute_kold_buy_decomp (cfg : Config) (st : EngineState) (sig : Signal)
    (d : ℕ) (up kp : ℚ) :
    execute_kold_buy cfg st sig d up kp =
      buy_tail cfg (kold_pre cfg st d up kp) sig d kp cfg.inverse_symbol := rfl

theorem buy_tail_cases (cfg : Config) (st2 : EngineState) (sig : Signal)
    (d : ℕ) (price : ℚ) (symbol : String) :
    buy_tail cfg st2 sig d price symbol = st2 ∨
    (¬ pyInt (calculate_position_size cfg st2 sig / price) ≤ 0 ∧
      ¬ (pyInt (calculate_position_size cfg st2 sig / price) : ℚ) * price < 100 ∧
      ¬ (pyInt (calculate_position_size cfg st2 sig / price) : ℚ) * price >
          st2.current_capital ∧
      buy_tail cfg st2 sig d price symbol =
        setup_stop_loss cfg
          { st2 with
            trades := st2.trades ++ [buyTrade cfg sig d symbol price
              (pyInt (calculate_position_size cfg st2 sig / price))],
            current_capital := st2.current_capital -
              (pyInt (calculate_position_size cfg st2 sig / price) : ℚ) *
                (price * (1 + cfg.slippage_pct)) - cfg.commission_per_trade,
            positions := dictSet st2.positions symbol
              (buyPosition cfg d symbol price
                (pyInt (calculate_position_size cfg st2 sig / price))) }
          symbol (price * (1 + cfg.slippage_pct)) d) := by
  unfold buy_tail
  dsimp only
  by_cases h1 : pyInt (calculate_position_size cfg st2 sig / price) ≤ 0
  · rw [if_pos h1]
    exact Or.inl rfl
  · rw [if_neg h1]
    by_cases h2 : (pyInt (calculate_position_size cfg st2 sig / price) : ℚ) * price < 100
    · rw [if_pos h2]
      exact Or.inl rfl
    · rw [if_neg h2]
      by_cases h3 : (pyInt (calculate_position_size cfg st2 sig / price) : ℚ) * price >
          st2.current_capital
      · rw [if_pos h3]
        exact Or.inl rfl
      · rw [if_neg h3]
        exact Or.inr ⟨h1, h2, h3, rfl⟩

theorem buy_tail_dpv (cfg : Config) (st2 : EngineState) (sig : Signal)
    (d : ℕ) (price : ℚ) (symbol : String) :
    (buy_tail cfg st2 sig d price symbol).daily_portfolio_values =
      st2.daily_portfolio_values := by
  rcases buy_tail_cases cfg st2 sig d price symbol with h | ⟨_, _, _, h⟩ <;>
    (rw [h]; try rfl)

theorem buy_tail_trades (cfg : Config) (st2 : EngineState) (sig : Signal)
    (d : ℕ) (price : ℚ) (symbol : String) :
    buy_tail cfg st2 sig d price symbol = st2 ∨
    ∃ q, (buy_tail cfg st2 sig d price symbol).trades =
      st2.trades ++ [buyTrade cfg sig d symbol price q] := by
  rcases buy_tail_cases cfg st2 sig d price symbol with h | ⟨_, _, _, h⟩
  · exact Or.inl h
  · exact Or.inr ⟨_, by rw [h]; rfl⟩

theorem buy_tail_positions (cfg : Config) (st2 : EngineState) (sig : Signal)
    (d : ℕ) (price : ℚ) (symbol : String) :
    (buy_tail cfg st2 sig d price symbol).positions = st2.positions ∨
    ∃ q, (buy_tail cfg st2 sig d price symbol).positions =
      dictSet st2.positions symbol (buyPosition cfg d symbol price q) := by
  rcases buy_tail_cases cfg st2 sig d price symbol with h | ⟨_, _, _, h⟩
  · exact Or.inl (by rw [h])
  · exact Or.inr ⟨_, by rw [h]; rfl⟩

theorem boil_pre_dpv (cfg : Config) (st : EngineState) (d : ℕ) (up kp : ℚ) :
    (boil_pre cfg st d up kp).daily_portfolio_values =
      st.daily_portfolio_values := by
  unfold boil_pre
  dsimp only
  split <;> split <;> simp [close_position_dpv]

theorem kold_pre_dpv (cfg : Config) (st : EngineState) (d : ℕ) (up kp : ℚ) :
    (kold_pre cfg st d up kp).daily_portfolio_values =
      st.daily_portfolio_values := by
  unfold kold_pre
  dsimp only
  split <;> split <;> simp [close_position_dpv]

theorem boil_pre_of_empty (cfg : Config) (st : EngineState) (d : ℕ) (up kp : ℚ)
    (h : st.positions = []) : boil_pre cfg st d up kp = st := by
  simp [boil_pre, dictContains, h]

theorem kold_pre_of_empty (cfg : Config) (st : EngineState) (d : ℕ) (up kp : ℚ)
    (h : st.positions = []) : kold_pre cfg st d up kp = st := by
  simp [kold_pre, dictContains, h]

/-! ### Decomposition of the stop-check loop body -/

theorem check_stop_item_decomp (cfg : Config) (d : ℕ) (up kp : ℚ)
    (st : EngineState) (item : String × StopInfo) :
    check_stop_item cfg d up kp st item =
      if ¬ dictContains st.positions item.1 then
        { st with active_stops := dictDel st.active_stops item.1 }
      else
        match stop_price_for cfg item.1 up kp with
        | none => st
        | some p => stop_checks_at cfg d st item.1 item.2 p := rfl

theorem stop_checks_at_cases (cfg : Config) (d : ℕ) (st : EngineState)
    (symbol : String) (si : StopInfo) (p : ℚ) :
    stop_checks_at cfg d st symbol si p = close_position cfg st symbol d p STOP_LOSS ∨
    stop_checks_at cfg d st symbol si p = close_position cfg st symbol d p TAKE_PROFIT ∨
    stop_checks_at cfg d st symbol si p = st ∨
    stop_checks_at cfg d st symbol si p = activate_trailing_stop cfg st symbol p ∨
    stop_checks_at cfg d st symbol si p = update_trailing_stop cfg st symbol p d ∨
    stop_checks_at cfg d st symbol si p =
      update_trailing_stop cfg (activate_trailing_stop cfg st symbol p) symbol p d := by
  unfold stop_checks_at
  by_cases h1 : p ≤ si.stop_loss_price
  · rw [if_pos h1]
    exact Or.inl rfl
  · rw [if_neg h1]
    by_cases h2 : p ≥ si.take_profit_price
    · rw [if_pos h2]
      exact Or.inr (Or.inl rfl)
    · rw [if_neg h2]
      dsimp only
      by_cases h3 : ¬ si.trailing_stop ∧ (p - si.entry_price) / si.entry_price ≥ 1 / 10
      · rw [if_pos h3]
        cases hg : dictGet (activate_trailing_stop cfg st symbol p).active_stops symbol with
        | none =>
          simp only [hg]
          simp
        | some si2 =>
          simp only [hg]
          by_cases h4 : si2.trailing_stop
          · rw [if_pos h4]
            exact Or.inr (Or.inr (Or.inr (Or.inr (Or.inr rfl))))
          · rw [if_neg h4]
            exact Or.inr (Or.inr (Or.inr (Or.inl rfl)))
      · rw [if_neg h3]
        cases hg : dictGet st.active_stops symbol with
        | none =>
          simp only [hg]
          simp
        | some si2 =>
          simp only [hg]
          by_cases h4 : si2.trailing_stop
          · rw [if_pos h4]
            exact Or.inr (Or.inr (Or.inr (Or.inr (Or.inl rfl))))
          · rw [if_neg h4]
            exact Or.inr (Or.inr (Or.inl rfl))

theorem check_stop_item_mem_positions (cfg : Config) (d : ℕ) (up kp : ℚ)
    (st : EngineState) (item : String × StopInfo) (p : String × Position)
    (hp : p ∈ (check_stop_item cfg d up kp st item).positions) :
    p ∈ st.positions := by
  rw [check_stop_item_decomp] at hp
  split at hp
  · exact hp
  · split at hp
    · exact hp
    · rcases stop_checks_at_cases cfg d st item.1 item.2 _ with
        h | h | h | h | h | h <;> rw [h] at hp
      · exact close_position_mem_positions _ _ _ _ _ _ _ hp
      · exact close_position_mem_positions _ _ _ _ _ _ _ hp
      · exact hp
      · rw [activate_trailing_stop_positions] at hp
        exact hp
      · exact update_trailing_stop_mem_positions _ _ _ _ _ _ hp
      · have h2 := update_trailing_stop_mem_positions _ _ _ _ _ _ hp
        rw [activate_trailing_stop_positions] at h2
        exact h2

theorem check_stop_item_length_positions (cfg : Config) (d : ℕ) (up kp : ℚ)
    (st : EngineState) (item : String × StopInfo) :
    (check_stop_item cfg d up kp st item).positions.length ≤
      st.positions.length := by
  rw [check_stop_item_decomp]
  split
  · exact le_rfl
  · split
    · exact le_rfl
    · rename_i pr hpr
      rcases stop_checks_at_cases cfg d st item.1 item.2 pr with
        h | h | h | h | h | h <;> rw [h] <;>
        first
          | exact le_rfl
          | exact close_position_length_positions cfg st item.1 d pr _ _ le_rfl
          | rw [activate_trailing_stop_positions]
          | exact update_trailing_stop_length_positions cfg st item.1 pr d
          | (have h2 := update_trailing_stop_length_positions cfg
              (activate_trailing_stop cfg st item.1 pr) item.1 pr d
             rw [activate_trailing_stop_positions] at h2
             exact h2)

theorem check_stop_item_dpv (cfg : Config) (d : ℕ) (up kp : ℚ)
    (st : EngineState) (item : String × StopInfo) :
    (check_stop_item cfg d up kp st item).daily_portfolio_values =
      st.daily_portfolio_values := by
  rw [check_stop_item_decomp]
  split
  · rfl
  · split
    · rfl
    · rename_i pr hpr
      rcases stop_checks_at_cases cfg d st item.1 item.2 pr with
        h | h | h | h | h | h <;> rw [h] <;>
        first
          | rfl
          | exact close_position_dpv cfg st item.1 d pr _
          | exact activate_trailing_stop_dpv cfg st item.1 pr
          | exact update_trailing_stop_dpv cfg st item.1 pr d
          | rw [update_trailing_stop_dpv, activate_trailing_stop_dpv]

theorem check_stop_item_trades_mono (cfg : Config) (d : ℕ) (up kp : ℚ)
    (st : EngineState) (item : String × StopInfo) :
    ∃ ts, (check_stop_item cfg d up kp st item).trades = st.trades ++ ts := by
  rw [check_stop_item_decomp]
  split
  · exact ⟨[], (List.append_nil _).symm⟩
  · split
    · exact ⟨[], (List.append_nil _).symm⟩
    · rename_i pr hpr
      rcases stop_checks_at_cases cfg d st item.1 item.2 pr with
        h | h | h | h | h | h <;> rw [h] <;>
        first
          | exact ⟨[], (List.append_nil _).symm⟩
          | (obtain ⟨ts, hts, _⟩ :=
              close_position_trades_mono cfg st item.1 d pr STOP_LOSS
             exact ⟨ts, hts⟩)
          | (obtain ⟨ts, hts, _⟩ :=
              close_position_trades_mono cfg st item.1 d pr TAKE_PROFIT
             exact ⟨ts, hts⟩)
          | (rw [activate_trailing_stop_trades]
             exact ⟨[], (List.append_nil _).symm⟩)
          | exact update_trailing_stop_trades_mono cfg st item.1 pr d
          | (obtain ⟨ts, hts⟩ := update_trailing_stop_trades_mono cfg
              (activate_trailing_stop cfg st item.1 pr) item.1 pr d
             rw [activate_trailing_stop_trades] at hts
             exact ⟨ts, hts⟩)

theorem check_stop_item_stops_other (cfg : Config) (d : ℕ) (up kp : ℚ)
    (st : EngineState) (item : String × StopInfo) (k : String) (hk : k ≠ item.1) :
    dictGet (check_stop_item cfg d up kp st item).active_stops k =
      dictGet st.active_stops k := by
  rw [check_stop_item_decomp]
  split
  · exact dictGet_dictDel_ne _ _ _ hk
  · split
    · rfl
    · rename_i pr hpr
      rcases stop_checks_at_cases cfg d st item.1 item.2 pr with
        h | h | h | h | h | h <;> rw [h] <;>
        first
          | rfl
          | exact close_position_stops_other cfg st item.1 d pr _ k hk
          | exact activate_trailing_stop_stops_other cfg st item.1 pr k hk
          | exact update_trailing_stop_stops_other cfg st item.1 pr d k hk
          | (rw [update_trailing_stop_stops_other cfg
              (activate_trailing_stop cfg st item.1 pr) item.1 pr d k hk]
             exact activate_trailing_stop_stops_other cfg st item.1 pr k hk)

/-! ### Day-level lemmas -/

theorem check_stop_losses_dpv (cfg : Config) (st : EngineState) (d : ℕ)
    (up kp : ℚ) :
    (check_stop_losses cfg st d up kp).daily_portfolio_values =
      st.daily_portfolio_values := by
  unfold check_stop_losses
  exact foldl_preserves
    (fun s => s.daily_portfolio_values = st.daily_portfolio_values)
    (check_stop_item cfg d up kp)
    (fun s a hs => by
      show (check_stop_item cfg d up kp s a).daily_portfolio_values =
        st.daily_portfolio_values
      rw [check_stop_item_dpv]
      exact hs)
    st.active_stops st rfl

theorem check_stop_losses_trades_mono (cfg : Config) (st : EngineState) (d : ℕ)
    (up kp : ℚ) :
    ∃ ts, (check_stop_losses cfg st d up kp).trades = st.trades ++ ts := by
  unfold check_stop_losses
  exact foldl_preserves (fun s => ∃ ts, s.trades = st.trades ++ ts)
    (check_stop_item cfg d up kp)
    (fun s a hs => by
      obtain ⟨ts, hts⟩ := hs
      obtain ⟨ts2, hts2⟩ := check_stop_item_trades_mono cfg d up kp s a
      exact ⟨ts ++ ts2, by rw [hts2, hts, List.append_assoc]⟩)
    st.active_stops st ⟨[], (List.append_nil _).symm⟩

theorem boil_pre_trades_mono (cfg : Config) (st : EngineState) (d : ℕ)
    (up kp : ℚ) :
    ∃ ts, (boil_pre cfg st d up kp).trades = st.trades ++ ts := by
  unfold boil_pre
  dsimp only
  by_cases c1 : dictContains st.positions cfg.inverse_symbol
  · rw [if_pos c1]
    obtain ⟨ts1, h1, _⟩ :=
      close_position_trades_mono cfg st cfg.inverse_symbol d kp MUTUAL_EXCLUSIVITY
    by_cases c2 : dictContains
        (close_position cfg st cfg.inverse_symbol d kp MUTUAL_EXCLUSIVITY).positions
        cfg.symbol
    · rw [if_pos c2]
      obtain ⟨ts2, h2, _⟩ := close_position_trades_mono cfg
        (close_position cfg st cfg.inverse_symbol d kp MUTUAL_EXCLUSIVITY)
        cfg.symbol d up SIGNAL
      exact ⟨ts1 ++ ts2, by rw [h2, h1, List.append_assoc]⟩
    · rw [if_neg c2]
      exact ⟨ts1, h1⟩
  · rw [if_neg c1]
    by_cases c2 : dictContains st.positions cfg.symbol
    · rw [if_pos c2]
      obtain ⟨ts2, h2, _⟩ := close_position_trades_mono cfg st cfg.symbol d up SIGNAL
      exact ⟨ts2, h2⟩
    · rw [if_neg c2]
      exact ⟨[], (List.append_nil _).symm⟩

theorem kold_pre_trades_mono (cfg : Config) (st : EngineState) (d : ℕ)
    (up kp : ℚ) :
    ∃ ts, (kold_pre cfg st d up kp).trades = st.trades ++ ts := by
  unfold kold_pre
  dsimp only
  by_cases c1 : dictContains st.positions cfg.symbol
  · rw [if_pos c1]
    obtain ⟨ts1, h1, _⟩ :=
      close_position_trades_mono cfg st cfg.symbol d up MUTUAL_EXCLUSIVITY
    by_cases c2 : dictContains
        (close_position cfg st cfg.symbol d up MUTUAL_EXCLUSIVITY).positions
        cfg.inverse_symbol
    · rw [if_pos c2]
      obtain ⟨ts2, h2, _⟩ := close_position_trades_mono cfg
        (close_position cfg st cfg.symbol d up MUTUAL_EXCLUSIVITY)
        cfg.inverse_symbol d kp SIGNAL
      exact ⟨ts1 ++ ts2, by rw [h2, h1, List.append_assoc]⟩
    · rw [if_neg c2]
      exact ⟨ts1, h1⟩
  · rw [if_neg c1]
    by_cases c2 : dictContains st.positions cfg.inverse_symbol
    · rw [if_pos c2]
      obtain ⟨ts2, h2, _⟩ := close_position_trades_mono cfg st cfg.inverse_symbol d kp SIGNAL
      exact ⟨ts2, h2⟩
    · rw [if_neg c2]
      exact ⟨[], (List.append_nil _).symm⟩

theorem buy_tail_trades_mono (cfg : Config) (st2 : EngineState) (sig : Signal)
    (d : ℕ) (price : ℚ) (symbol : String) :
    ∃ ts, (buy_tail cfg st2 sig d price symbol).trades = st2.trades ++ ts := by
  rcases buy_tail_trades cfg st2 sig d price symbol with h | ⟨q, h⟩
  · exact ⟨[], by rw [h]; simp⟩
  · exact ⟨[buyTrade cfg sig d symbol price q], h⟩

theorem process_buy_signal_trades_mono (cfg : Config) (st : EngineState)
    (sig : Signal) (d : ℕ) (up kp : ℚ) :
    ∃ ts, (process_buy_signal cfg st sig d up kp).trades = st.trades ++ ts := by
  unfold process_buy_signal
  split
  · rw [execute_boil_buy_decomp]
    obtain ⟨ts1, h1⟩ := boil_pre_trades_mono cfg st d up kp
    obtain ⟨ts2, h2⟩ := buy_tail_trades_mono cfg (boil_pre cfg st d up kp) sig d up cfg.symbol
    exact ⟨ts1 ++ ts2, by rw [h2, h1, List.append_assoc]⟩
  · split
    · rw [execute_kold_buy_decomp]
      obtain ⟨ts1, h1⟩ := kold_pre_trades_mono cfg st d up kp
      obtain ⟨ts2, h2⟩ :=
        buy_tail_trades_mono cfg (kold_pre cfg st d up kp) sig d kp cfg.inverse_symbol
      exact ⟨ts1 ++ ts2, by rw [h2, h1, List.append_assoc]⟩
    · exact ⟨[], (List.append_nil _).symm⟩

theorem process_buy_signal_dpv (cfg : Config) (st : EngineState) (sig : Signal)
    (d : ℕ) (up kp : ℚ) :
    (process_buy_signal cfg st sig d up kp).daily_portfolio_values =
      st.daily_portfolio_values := by
  unfold process_buy_signal
  split
  · rw [execute_boil_buy_decomp, buy_tail_dpv, boil_pre_dpv]
  · split
    · rw [execute_kold_buy_decomp, buy_tail_dpv, kold_pre_dpv]
    · rfl

theorem process_day_skip (cfg : Config) (st : EngineState) (d : ℕ)
    (signals : List Signal) (u k : List (ℕ × ℚ))
    (h : get_price_for_date u d = none ∨ get_price_for_date k d = none) :
    process_day cfg st d signals u k = st := by
  unfold process_day
  cases hgu : get_price_for_date u d with
  | none => rfl
  | some up =>
    cases hgk : get_price_for_date k d with
    | none => rfl
    | some kp =>
      rcases h with h | h
      · rw [hgu] at h
        exact absurd h (by simp)
      · rw [hgk] at h
        exact absurd h (by simp)

theorem process_day_dpv (cfg : Config) (st : EngineState) (d : ℕ)
    (signals : List Signal) (u k : List (ℕ × ℚ)) (up kp : ℚ)
    (hu : get_price_for_date u d = some up)
    (hk : get_price_for_date k d = some kp) :
    (process_day cfg st d signals u k).daily_portfolio_values =
      st.daily_portfolio_values ++
        [(d, calculate_portfolio_value cfg st up kp)] := by
  unfold process_day
  rw [hu, hk]
  dsimp only
  cases hs : get_signal_for_date signals d with
  | none =>
    dsimp only
    rw [check_stop_losses_dpv]
  | some sig =>
    dsimp only
    by_cases hb : sig.action = BUY
    · rw [if_pos hb, process_buy_signal_dpv, check_stop_losses_dpv]
    · rw [if_neg hb, check_stop_losses_dpv]

theorem process_day_trades_mono (cfg : Config) (st : EngineState) (d : ℕ)
    (signals : List Signal) (u k : List (ℕ × ℚ)) :
    ∃ ts, (process_day cfg st d signals u k).trades = st.trades ++ ts := by
  unfold process_day
  cases hgu : get_price_for_date u d with
  | none => exact ⟨[], (List.append_nil _).symm⟩
  | some up =>
    cases hgk : get_price_for_date k d with
    | none => exact ⟨[], (List.append_nil _).symm⟩
    | some kp =>
      dsimp only
      cases hs : get_signal_for_date signals d with
      | none =>
        dsimp only
        obtain ⟨ts, hts⟩ := check_stop_losses_trades_mono cfg
          { st with daily_portfolio_values := st.daily_portfolio_values ++
              [(d, calculate_portfolio_value cfg st up kp)] } d up kp
        exact ⟨ts, hts⟩
      | some sig =>
        dsimp only
        obtain ⟨ts, hts⟩ := check_stop_losses_trades_mono cfg
          { st with daily_portfolio_values := st.daily_portfolio_values ++
              [(d, calculate_portfolio_value cfg st up kp)] } d up kp
        by_cases hb : sig.action = BUY
        · rw [if_pos hb]
          obtain ⟨ts2, hts2⟩ := process_buy_signal_trades_mono cfg _ sig d up kp
          exact ⟨ts ++ ts2, by rw [hts2, hts, List.append_assoc]⟩
        · rw [if_neg hb]
          exact ⟨ts, hts⟩

theorem close_all_positions_trades_mono (cfg : Config) (st : EngineState)
    (u k : List (ℕ × ℚ)) (e : ℕ) :
    ∃ ts, (close_all_positions cfg st u k e).trades = st.trades ++ ts := by
  unfold close_all_positions
  dsimp only
  refine foldl_preserves (fun s => ∃ ts, s.trades = st.trades ++ ts) _ ?_ _ st
    ⟨[], (List.append_nil _).symm⟩
  intro s a hs
  obtain ⟨ts, hts⟩ := hs
  split
  · obtain ⟨ts2, hts2, _⟩ := close_position_trades_mono cfg s a e _ END_OF_BACKTEST
    exact ⟨ts ++ ts2, by rw [hts2, hts, List.append_assoc]⟩
  · split
    · obtain ⟨ts2, hts2, _⟩ := close_position_trades_mono cfg s a e _ END_OF_BACKTEST
      exact ⟨ts ++ ts2, by rw [hts2, hts, List.append_assoc]⟩
    · exact ⟨ts, hts⟩

theorem close_all_positions_of_empty (cfg : Config) (st : EngineState)
    (u k : List (ℕ × ℚ)) (e : ℕ) (h : st.positions = []) :
    close_all_positions cfg st u k e = st := by
  unfold close_all_positions
  rw [h]
  rfl

/-! ### Portfolio-value characterization -/

theorem calculate_portfolio_value_eq_sum (cfg : Config) (st : EngineState)
    (up kp : ℚ) :
    calculate_portfolio_value cfg st up kp = st.current_capital +
      (st.positions.map (fun p =>
        if p.1 = cfg.symbol then (p.2.quantity : ℚ) * up
        else if p.1 = cfg.inverse_symbol then (p.2.quantity : ℚ) * kp
        else 0)).sum := by
  unfold calculate_portfolio_value
  suffices h : ∀ (l : List (String × Position)) (c : ℚ),
      l.foldl (fun total p =>
        if p.1 = cfg.symbol then total + (p.2.quantity : ℚ) * up
        else if p.1 = cfg.inverse_symbol then total + (p.2.quantity : ℚ) * kp
        else total) c = c +
      (l.map (fun p =>
        if p.1 = cfg.symbol then (p.2.quantity : ℚ) * up
        else if p.1 = cfg.inverse_symbol then (p.2.quantity : ℚ) * kp
        else 0)).sum by
    exact h st.positions st.current_capital
  intro l
  induction l with
  | nil =>
    intro c
    simp
  | cons p t ih =>
    intro c
    rw [List.foldl_cons, List.map_cons, List.sum_cons]
    by_cases h1 : p.1 = cfg.symbol
    · rw [if_pos h1, if_pos h1, ih]
      ring
    · rw [if_neg h1, if_neg h1]
      by_cases h2 : p.1 = cfg.inverse_symbol
      · rw [if_pos h2, if_pos h2, ih]
        ring
      · rw [if_neg h2, if_neg h2, ih]
        ring

/-! ### Claim C1 -/

unseal Rat.add Rat.mul Rat.sub Rat.inv in
/-- C1 counterexample: on the first processed day of a concrete run (one BUY
signal executed with slippage and commission), the portfolio value recorded
that day (100000) differs from cash plus the open position valued at that
day's resolved prices once the day's processing has completed. -/
theorem C1_counterexample :
    (process_day cfg0 (reset_state cfg0) 0 [sigBuyHalf] ungDf0 koldDf0).daily_portfolio_values
        = [(0, 100000)] ∧
    (process_day cfg0 (reset_state cfg0) 0 [sigBuyHalf] ungDf0 koldDf0).current_capital +
      ((process_day cfg0 (reset_state cfg0) 0 [sigBuyHalf] ungDf0 koldDf0).positions.map
        (fun p =>
          if p.1 = cfg0.symbol then (p.2.quantity : ℚ) * 100
          else if p.1 = cfg0.inverse_symbol then (p.2.quantity : ℚ) * 50
          else 0)).sum ≠ 100000 := by
  decide

/-- C1 (amended): the portfolio value recorded for a processed day equals cash
plus the sum over open positions of quantity times that day's resolved price,
taken at the moment of recording — that is, at the start of the day's
processing, before that day's stop evaluations and signal-driven trades. -/
theorem C1_theorem (cfg : Config) (st : EngineState) (d : ℕ)
    (signals : List Signal) (u k : List (ℕ × ℚ)) (up kp : ℚ)
    (hu : get_price_for_date u d = some up)
    (hk : get_price_for_date k d = some kp) :
    (process_day cfg st d signals u k).daily_portfolio_values =
      st.daily_portfolio_values ++
        [(d, st.current_capital + (st.positions.map (fun p =>
          if p.1 = cfg.symbol then (p.2.quantity : ℚ) * up
          else if p.1 = cfg.inverse_symbol then (p.2.quantity : ℚ) * kp
          else 0)).sum)] := by
  rw [process_day_dpv cfg st d signals u k up kp hu hk,
    calculate_portfolio_value_eq_sum]

/-- Witness for C1: the amended identity at a concrete run input. -/
theorem C1_witness :
    (process_day cfg0 (reset_state cfg0) 0 [sigBuyHalf] ungDf0 koldDf0).daily_portfolio_values =
      (reset_state cfg0).daily_portfolio_values ++
        [(0, (reset_state cfg0).current_capital + ((reset_state cfg0).positions.map (fun p =>
          if p.1 = cfg0.symbol then (p.2.quantity : ℚ) * 100
          else if p.1 = cfg0.inverse_symbol then (p.2.quantity : ℚ) * 50
          else 0)).sum)] :=
  C1_theorem cfg0 (reset_state cfg0) 0 [sigBuyHalf] ungDf0 koldDf0 100 50
    (by decide) (by decide)

/-! ### Claim C4 -/

/-- C4 counterexample: a day on which the primary instrument has a resolvable
price (100) but the inverse instrument has none is skipped entirely — no
portfolio-value entry is recorded — contradicting the claim that a day is
skipped only when neither instrument has a resolvable price. -/
theorem C4_counterexample :
    get_price_for_date ungDf0 0 = some 100 ∧
    (process_day cfg0 (reset_state cfg0) 0 [] ungDf0 []).daily_portfolio_values
      = [] := by
  decide

/-- C4 (amended): the engine records exactly one portfolio-value entry for a
simulated day if and only if BOTH instruments have a resolvable price that
day; if either instrument has no resolvable price the day is skipped entirely
(the state is returned unchanged: no entry, no stop evaluation, no order). -/
theorem C4_theorem (cfg : Config) (st : EngineState) (d : ℕ)
    (signals : List Signal) (u k : List (ℕ × ℚ)) :
    (((get_price_for_date u d).isSome ∧ (get_price_for_date k d).isSome) →
      (process_day cfg st d signals u k).daily_portfolio_values.length =
        st.daily_portfolio_values.length + 1) ∧
    (¬ ((get_price_for_date u d).isSome ∧ (get_price_for_date k d).isSome) →
      process_day cfg st d signals u k = st) := by
  constructor
  · rintro ⟨h1, h2⟩
    obtain ⟨up, hu⟩ := Option.isSome_iff_exists.mp h1
    obtain ⟨kp, hk⟩ := Option.isSome_iff_exists.mp h2
    rw [process_day_dpv cfg st d signals u k up kp hu hk, List.length_append,
      List.length_singleton]
  · intro h
    apply process_day_skip
    rcases not_and_or.mp h with h | h
    · exact Or.inl (Option.not_isSome_iff_eq_none.mp h)
    · exact Or.inr (Option.not_isSome_iff_eq_none.mp h)

/-- Witness for C4: both conjuncts at concrete inputs. -/
theorem C4_witness :
    (process_day cfg0 (reset_state cfg0) 0 [] ungDf0 koldDf0).daily_portfolio_values.length =
      (reset_state cfg0).daily_portfolio_values.length + 1 ∧
    process_day cfg0 (reset_state cfg0) 0 [] ungDf0 [] = reset_state cfg0 :=
  ⟨(C4_theorem cfg0 (reset_state cfg0) 0 [] ungDf0 koldDf0).1 (by decide),
    (C4_theorem cfg0 (reset_state cfg0) 0 [] ungDf0 []).2 (by decide)⟩

/-! ### Claim C6 -/

unseal Rat.add Rat.mul Rat.sub Rat.inv in
/-- C6 counterexample: in the claim's concrete scenario (initial capital
100000, BUY signal at the 0.5 signal total, price 100, base size 1000) the
executed trade has quantity 10, not 9 — the code computes the quantity from
the pre-slippage quoted price. -/
theorem C6_counterexample :
    ((execute_boil_buy cfg0 (reset_state cfg0) sigBuyHalf 0 100 50).trades.map
      (fun t => t.quantity)) = [10] ∧ (10 : ℤ) ≠ 9 := by
  decide

unseal Rat.add Rat.mul Rat.sub Rat.inv in
/-- C6 (amended): the target notional equals
clamp(base_size × min(|signal.total| / 0.5, 2.0) × min(cash/initial_capital, 1),
min_size, max_size) — the divisor is the hard-coded constant 0.5, not the
configured buy threshold — and quantity = trunc(notional / quoted price),
computed before slippage. In the concrete scenario the trade has quantity 10,
reason SIGNAL, executed price 100.1, and the created stop has
stop_loss_price = 95.095 and take_profit_price = 115.115. -/
theorem C6_theorem :
    (∀ cfg st sig, calculate_position_size cfg st sig =
      max cfg.min_position_size (min
        (cfg.base_position_size * min (|sig.total_signal| / (1 / 2)) 2 *
          min (st.current_capital / cfg.initial_capital) 1)
        cfg.max_position_size)) ∧
    (execute_boil_buy cfg0 (reset_state cfg0) sigBuyHalf 0 100 50).trades =
      [{ timestamp := 0, symbol := UNG, action := BUY, quantity := 10,
         price := 1001 / 10, value := 1001, signal_strength := 1 / 2,
         confidence := 1, reason := SIGNAL }] ∧
    dictGet (execute_boil_buy cfg0 (reset_state cfg0) sigBuyHalf 0 100 50).active_stops UNG =
      some { entry_price := 1001 / 10, stop_loss_price := 19019 / 200,
             take_profit_price := 23023 / 200, entry_date := 0,
             trailing_stop := false, trailing_stop_price := none } := by
  refine ⟨fun cfg st sig => rfl, ?_, ?_⟩ <;> decide

/-! ### Claim C8 -/

unseal Rat.add Rat.mul Rat.sub Rat.inv in
/-- C8 counterexample: the end-of-run liquidation SELL carries reason
END_OF_BACKTEST, not the reason END_OF_SIMULATION stated by the claim. -/
theorem C8_counterexample :
    ((close_all_positions cfg0 stC8 ungDf0 koldDf0 0).trades.map
      (fun t => t.reason)) = [END_OF_BACKTEST] ∧
    END_OF_BACKTEST ≠ END_OF_SIMULATION := by
  decide

/-- C8 (amended): every trade appended by the end-of-run liquidation is a SELL
with reason END_OF_BACKTEST, and a run holding exactly one position — in the
primary instrument or, with distinct configured symbols, in the inverse
instrument — whose final price is resolvable and truthy closes it at that
instrument's final price less slippage. -/
theorem C8_theorem (cfg : Config) (st : EngineState) (u k : List (ℕ × ℚ))
    (e : ℕ) (pos : Position) :
    (∀ tr ∈ (close_all_positions cfg st u k e).trades,
        tr ∈ st.trades ∨ (tr.action = SELL ∧ tr.reason = END_OF_BACKTEST)) ∧
    (st.positions = [(cfg.symbol, pos)] →
      truthyPrice (get_price_for_date u e) = true →
      (close_all_positions cfg st u k e).positions = [] ∧
      (close_all_positions cfg st u k e).trades = st.trades ++
        [closeTrade cfg cfg.symbol e ((get_price_for_date u e).getD 0)
          END_OF_BACKTEST pos]) ∧
    (cfg.symbol ≠ cfg.inverse_symbol →
      st.positions = [(cfg.inverse_symbol, pos)] →
      truthyPrice (get_price_for_date k e) = true →
      (close_all_positions cfg st u k e).positions = [] ∧
      (close_all_positions cfg st u k e).trades = st.trades ++
        [closeTrade cfg cfg.inverse_symbol e ((get_price_for_date k e).getD 0)
          END_OF_BACKTEST pos]) := by
  refine ⟨?_, ?_, ?_⟩
  · unfold close_all_positions
    dsimp only
    refine foldl_preserves (fun s => ∀ tr ∈ s.trades,
      tr ∈ st.trades ∨ (tr.action = SELL ∧ tr.reason = END_OF_BACKTEST)) _ ?_ _ st
      (fun tr htr => Or.inl htr)
    intro s a hs
    show ∀ tr ∈ (if a = cfg.symbol ∧ truthyPrice (get_price_for_date u e) = true then
        close_position cfg s a e ((get_price_for_date u e).getD 0) END_OF_BACKTEST
      else if a = cfg.inverse_symbol ∧ truthyPrice (get_price_for_date k e) = true then
        close_position cfg s a e ((get_price_for_date k e).getD 0) END_OF_BACKTEST
      else s).trades, tr ∈ st.trades ∨ (tr.action = SELL ∧ tr.reason = END_OF_BACKTEST)
    split
    · obtain ⟨ts, hts, hall⟩ := close_position_trades_mono cfg s a e
        ((get_price_for_date u e).getD 0) END_OF_BACKTEST
      intro tr htr
      rw [hts] at htr
      rcases List.mem_append.mp htr with h1 | h1
      · exact hs tr h1
      · exact Or.inr (hall tr h1)
    · split
      · obtain ⟨ts, hts, hall⟩ := close_position_trades_mono cfg s a e
          ((get_price_for_date k e).getD 0) END_OF_BACKTEST
        intro tr htr
        rw [hts] at htr
        rcases List.mem_append.mp htr with h1 | h1
        · exact hs tr h1
        · exact Or.inr (hall tr h1)
      · exact hs
  · intro hpos htru
    have hget : dictGet st.positions cfg.symbol = some pos := by
      rw [hpos, dictGet_cons]
      simp
    unfold close_all_positions
    rw [hpos]
    dsimp only [List.map_cons, List.map_nil, List.foldl_cons, List.foldl_nil]
    rw [if_pos ⟨rfl, htru⟩,
      close_position_of_some cfg st cfg.symbol e _ END_OF_BACKTEST pos hget]
    constructor
    · show dictDel st.positions cfg.symbol = []
      rw [hpos]
      simp [dictDel]
    · rfl
  · intro hne hpos htru
    have hget : dictGet st.positions cfg.inverse_symbol = some pos := by
      rw [hpos, dictGet_cons]
      simp
    unfold close_all_positions
    rw [hpos]
    dsimp only [List.map_cons, List.map_nil, List.foldl_cons, List.foldl_nil]
    rw [if_neg (fun hc => hne hc.1.symm), if_pos ⟨rfl, htru⟩,
      close_position_of_some cfg st cfg.inverse_symbol e _ END_OF_BACKTEST pos hget]
    constructor
    · show dictDel st.positions cfg.inverse_symbol = []
      rw [hpos]
      simp [dictDel]
    · rfl

/-- Witness for C8: the single-position clause at concrete states, once with
the open position in the primary instrument and once in the inverse. -/
theorem C8_witness :
    ((close_all_positions cfg0 stC8 ungDf0 koldDf0 0).positions = [] ∧
     (close_all_positions cfg0 stC8 ungDf0 koldDf0 0).trades = stC8.trades ++
       [closeTrade cfg0 cfg0.symbol 0 ((get_price_for_date ungDf0 0).getD 0)
         END_OF_BACKTEST posC8]) ∧
    ((close_all_positions cfg0 stK8 ungDf0 koldDf0 0).positions = [] ∧
     (close_all_positions cfg0 stK8 ungDf0 koldDf0 0).trades = stK8.trades ++
       [closeTrade cfg0 cfg0.inverse_symbol 0 ((get_price_for_date koldDf0 0).getD 0)
         END_OF_BACKTEST posK8]) :=
  ⟨(C8_theorem cfg0 stC8 ungDf0 koldDf0 0 posC8).2.1 rfl (by decide),
   (C8_theorem cfg0 stK8 ungDf0 koldDf0 0 posK8).2.2 (by decide) rfl (by decide)⟩

/-! ### Claim C2 -/

unseal Rat.add Rat.mul Rat.sub Rat.inv in
/-- C2 counterexample: a run starting with non-negative capital 100 executes a
BUY whose pre-slippage notional (100) passes the capital check, yet slippage
and commission drive cash to -1.1 after the trade. -/
theorem C2_counterexample :
    (0 : ℚ) ≤ cfg100.initial_capital ∧
    ((process_day cfg100 (reset_state cfg100) 0 [sigBuySmall] ungDf0 koldDf0).trades.map
      (fun t => t.action)) = [BUY] ∧
    (process_day cfg100 (reset_state cfg100) 0 [sigBuySmall] ungDf0 koldDf0).current_capital
      < 0 := by
  decide

theorem buy_tail_reject_bound (cfg : Config) (st2 : EngineState) (sig : Signal)
    (d : ℕ) (price : ℚ) (symbol : String)
    (hslip : 0 ≤ cfg.slippage_pct) (hcomm : 0 ≤ cfg.commission_per_trade) :
    ((pyInt (calculate_position_size cfg st2 sig / price) : ℚ) * price >
        st2.current_capital →
      buy_tail cfg st2 sig d price symbol = st2) ∧
    (0 ≤ st2.current_capital →
      -(cfg.slippage_pct * st2.current_capital + cfg.commission_per_trade) ≤
        (buy_tail cfg st2 sig d price symbol).current_capital) := by
  rcases buy_tail_cases cfg st2 sig d price symbol with h | ⟨h1, h2, h3, h⟩
  · constructor
    · intro _
      exact h
    · intro hcash
      have hb0 : (0 : ℚ) ≤ cfg.slippage_pct * st2.current_capital +
          cfg.commission_per_trade :=
        add_nonneg (mul_nonneg hslip hcash) hcomm
      rw [h]
      linarith
  · constructor
    · intro hgt
      exact absurd hgt h3
    · intro hcash
      have hle : (pyInt (calculate_position_size cfg st2 sig / price) : ℚ) * price ≤
          st2.current_capital := not_lt.mp h3
      have h1s : (0 : ℚ) ≤ 1 + cfg.slippage_pct := by linarith
      have hmul := mul_nonneg h1s (sub_nonneg.mpr hle)
      rw [h]
      show -(cfg.slippage_pct * st2.current_capital + cfg.commission_per_trade) ≤
        st2.current_capital -
          (pyInt (calculate_position_size cfg st2 sig / price) : ℚ) *
            (price * (1 + cfg.slippage_pct)) - cfg.commission_per_trade
      nlinarith [hmul]

/-- C2 (amended): in either buy executor, a buy whose pre-slippage notional
(quantity x quoted price) exceeds the cash available at the affordability
check is rejected outright — no BUY trade, no state change beyond the
preceding position-refresh closes — and is never partially filled; but the
affordability check ignores slippage and commission, so an accepted buy can
leave cash negative, bounded below by
-(slippage_pct x cash + commission_per_trade). -/
theorem C2_theorem (cfg : Config) (st : EngineState) (sig : Signal) (d : ℕ)
    (up kp : ℚ)
    (hslip : 0 ≤ cfg.slippage_pct) (hcomm : 0 ≤ cfg.commission_per_trade) :
    (((pyInt (calculate_position_size cfg (boil_pre cfg st d up kp) sig / up) : ℚ) * up >
        (boil_pre cfg st d up kp).current_capital →
      execute_boil_buy cfg st sig d up kp = boil_pre cfg st d up kp) ∧
     (0 ≤ (boil_pre cfg st d up kp).current_capital →
      -(cfg.slippage_pct * (boil_pre cfg st d up kp).current_capital +
          cfg.commission_per_trade) ≤
        (execute_boil_buy cfg st sig d up kp).current_capital)) ∧
    (((pyInt (calculate_position_size cfg (kold_pre cfg st d up kp) sig / kp) : ℚ) * kp >
        (kold_pre cfg st d up kp).current_capital →
      execute_kold_buy cfg st sig d up kp = kold_pre cfg st d up kp) ∧
     (0 ≤ (kold_pre cfg st d up kp).current_capital →
      -(cfg.slippage_pct * (kold_pre cfg st d up kp).current_capital +
          cfg.commission_per_trade) ≤
        (execute_kold_buy cfg st sig d up kp).current_capital)) := by
  constructor
  · rw [execute_boil_buy_decomp]
    exact buy_tail_reject_bound cfg (boil_pre cfg st d up kp) sig d up cfg.symbol
      hslip hcomm
  · rw [execute_kold_buy_decomp]
    exact buy_tail_reject_bound cfg (kold_pre cfg st d up kp) sig d kp
      cfg.inverse_symbol hslip hcomm

unseal Rat.add Rat.mul Rat.sub Rat.inv in
/-- Witness for C2: the rejection and bound clauses of both executors at a
concrete state with an accepted primary-side buy. -/
theorem C2_witness :
    ((((pyInt (calculate_position_size cfg0 (boil_pre cfg0 (reset_state cfg0) 0 100 50) sigBuyHalf / 100) : ℚ) * 100 >
        (boil_pre cfg0 (reset_state cfg0) 0 100 50).current_capital →
      execute_boil_buy cfg0 (reset_state cfg0) sigBuyHalf 0 100 50 =
        boil_pre cfg0 (reset_state cfg0) 0 100 50) ∧
     (0 ≤ (boil_pre cfg0 (reset_state cfg0) 0 100 50).current_capital →
      -(cfg0.slippage_pct * (boil_pre cfg0 (reset_state cfg0) 0 100 50).current_capital +
          cfg0.commission_per_trade) ≤
        (execute_boil_buy cfg0 (reset_state cfg0) sigBuyHalf 0 100 50).current_capital)) ∧
    (((pyInt (calculate_position_size cfg0 (kold_pre cfg0 (reset_state cfg0) 0 100 50) sigBuyHalf / 50) : ℚ) * 50 >
        (kold_pre cfg0 (reset_state cfg0) 0 100 50).current_capital →
      execute_kold_buy cfg0 (reset_state cfg0) sigBuyHalf 0 100 50 =
        kold_pre cfg0 (reset_state cfg0) 0 100 50) ∧
     (0 ≤ (kold_pre cfg0 (reset_state cfg0) 0 100 50).current_capital →
      -(cfg0.slippage_pct * (kold_pre cfg0 (reset_state cfg0) 0 100 50).current_capital +
          cfg0.commission_per_trade) ≤
        (execute_kold_buy cfg0 (reset_state cfg0) sigBuyHalf 0 100 50).current_capital))) :=
  C2_theorem cfg0 (reset_state cfg0) sigBuyHalf 0 100 50 (by decide) (by decide)

/-! ### Claim C10 -/

theorem attach_pnls_pair (b c : Trade) (hb : b.action = BUY) (hc : c.action = SELL)
    (hsym : c.symbol = b.symbol) :
    attach_pnls [b, c] = [(b, none), (c, some (c.value - b.value))] := by
  unfold attach_pnls
  rw [List.foldl_cons, List.foldl_cons, List.foldl_nil]
  rw [if_pos hb]
  have hcb : ¬ (c.action = BUY) := by
    rw [hc]
    decide
  rw [if_neg hcb]
  have hcont : dictContains (dictSet ([] : List (String × Trade)) b.symbol b) c.symbol
      = true := by
    rw [hsym, dictContains_eq_isSome, dictGet_dictSet_self]
    rfl
  rw [if_pos ⟨hc, hcont⟩]
  have hget : dictGet (dictSet ([] : List (String × Trade)) b.symbol b) c.symbol
      = some b := by
    rw [hsym]
    exact dictGet_dictSet_self _ _ _
  simp only [hget]
  simp

theorem trade_stats_pair_breakeven (b c : Trade) (hb : b.action = BUY)
    (hc : c.action = SELL) (hsym : c.symbol = b.symbol) (hval : c.value = b.value) :
    (attach_pnls [b, c]).filterMap (fun x => x.2) = [0] ∧
    ((attach_pnls [b, c]).filterMap (fun x => x.2)).filter
      (fun pnl => decide (pnl > 0)) = [] ∧
    ((attach_pnls [b, c]).filterMap (fun x => x.2)).filter
      (fun pnl => decide (pnl < 0)) = [] ∧
    (trade_stats [b, c]).1 = 0 := by
  have hp := attach_pnls_pair b c hb hc hsym
  have hzero : c.value - b.value = 0 := by
    rw [hval]
    ring
  have hfm : (attach_pnls [b, c]).filterMap (fun x => x.2) = [0] := by
    rw [hp]
    simp [hzero]
  refine ⟨hfm, ?_, ?_, ?_⟩
  · rw [hfm]
    simp
  · rw [hfm]
    simp
  · unfold trade_stats
    rw [if_neg (by simp)]
    dsimp only
    rw [hfm, if_neg (by simp)]
    norm_num

theorem buy_close_roundtrip (cfg : Config) (st : EngineState) (sig : Signal)
    (d d2 : ℕ) (up p2 kp : ℚ)
    (htr : st.trades = []) (hpos : st.positions = [])
    (h1 : ¬ pyInt (calculate_position_size cfg st sig / up) ≤ 0)
    (h2 : ¬ (pyInt (calculate_position_size cfg st sig / up) : ℚ) * up < 100)
    (h3 : ¬ (pyInt (calculate_position_size cfg st sig / up) : ℚ) * up >
      st.current_capital) :
    (close_position cfg (execute_boil_buy cfg st sig d up kp) cfg.symbol d2 p2
        SIGNAL).trades =
      [buyTrade cfg sig d cfg.symbol up (pyInt (calculate_position_size cfg st sig / up)),
       closeTrade cfg cfg.symbol d2 p2 SIGNAL
         (buyPosition cfg d cfg.symbol up
           (pyInt (calculate_position_size cfg st sig / up)))] ∧
    (close_position cfg (execute_boil_buy cfg st sig d up kp) cfg.symbol d2 p2
        SIGNAL).current_capital =
      st.current_capital -
        (pyInt (calculate_position_size cfg st sig / up) : ℚ) *
          (up * (1 + cfg.slippage_pct)) - cfg.commission_per_trade +
        (pyInt (calculate_position_size cfg st sig / up) : ℚ) *
          (p2 * (1 - cfg.slippage_pct)) - cfg.commission_per_trade := by
  rw [execute_boil_buy_decomp, boil_pre_of_empty cfg st d up kp hpos]
  unfold buy_tail
  dsimp only
  rw [if_neg h1, if_neg h2, if_neg h3]
  have key : ∀ A : EngineState,
      A.positions = dictSet st.positions cfg.symbol
        (buyPosition cfg d cfg.symbol up
          (pyInt (calculate_position_size cfg st sig / up))) →
      A.trades = st.trades ++ [buyTrade cfg sig d cfg.symbol up
        (pyInt (calculate_position_size cfg st sig / up))] →
      A.current_capital = st.current_capital -
        (pyInt (calculate_position_size cfg st sig / up) : ℚ) *
          (up * (1 + cfg.slippage_pct)) - cfg.commission_per_trade →
      (close_position cfg A cfg.symbol d2 p2 SIGNAL).trades =
        [buyTrade cfg sig d cfg.symbol up
          (pyInt (calculate_position_size cfg st sig / up)),
         closeTrade cfg cfg.symbol d2 p2 SIGNAL
           (buyPosition cfg d cfg.symbol up
             (pyInt (calculate_position_size cfg st sig / up)))] ∧
      (close_position cfg A cfg.symbol d2 p2 SIGNAL).current_capital =
        st.current_capital -
          (pyInt (calculate_position_size cfg st sig / up) : ℚ) *
            (up * (1 + cfg.slippage_pct)) - cfg.commission_per_trade +
          (pyInt (calculate_position_size cfg st sig / up) : ℚ) *
            (p2 * (1 - cfg.slippage_pct)) - cfg.commission_per_trade := by
    intro A hApos hAtr hAcc
    have hget : dictGet A.positions cfg.symbol = some
        (buyPosition cfg d cfg.symbol up
          (pyInt (calculate_position_size cfg st sig / up))) := by
      rw [hApos]
      exact dictGet_dictSet_self _ _ _
    rw [close_position_of_some cfg A cfg.symbol d2 p2 SIGNAL _ hget]
    constructor
    · show A.trades ++ [closeTrade cfg cfg.symbol d2 p2 SIGNAL
        (buyPosition cfg d cfg.symbol up
          (pyInt (calculate_position_size cfg st sig / up)))] = _
      rw [hAtr, htr]
      simp
    · show A.current_capital +
        ((buyPosition cfg d cfg.symbol up
          (pyInt (calculate_position_size cfg st sig / up))).quantity : ℚ) *
          (p2 * (1 - cfg.slippage_pct)) - cfg.commission_per_trade = _
      have hq : ((buyPosition cfg d cfg.symbol up
          (pyInt (calculate_position_size cfg st sig / up))).quantity : ℚ) =
        ((pyInt (calculate_position_size cfg st sig / up) : ℤ) : ℚ) := rfl
      rw [hAcc, hq]
  exact key _ rfl rfl rfl

/-- C10: the realized PnL of a matched BUY/SELL round-trip used by the trade
statistics is sell value minus buy value, excluding the two per-trade
commissions deducted from cash: a round-trip whose sell proceeds exactly equal
its purchase cost yields PnL 0, counts in neither wins nor losses (win rate
0), yet leaves cash lower by exactly two commissions. -/
theorem C10_theorem (cfg : Config) (st : EngineState) (sig : Signal)
    (d d2 : ℕ) (up p2 kp : ℚ)
    (htr : st.trades = []) (hpos : st.positions = [])
    (h1 : ¬ pyInt (calculate_position_size cfg st sig / up) ≤ 0)
    (h2 : ¬ (pyInt (calculate_position_size cfg st sig / up) : ℚ) * up < 100)
    (h3 : ¬ (pyInt (calculate_position_size cfg st sig / up) : ℚ) * up >
      st.current_capital)
    (heq : p2 * (1 - cfg.slippage_pct) = up * (1 + cfg.slippage_pct)) :
    ((attach_pnls (close_position cfg (execute_boil_buy cfg st sig d up kp)
        cfg.symbol d2 p2 SIGNAL).trades).filterMap (fun x => x.2)) = [0] ∧
    ((attach_pnls (close_position cfg (execute_boil_buy cfg st sig d up kp)
        cfg.symbol d2 p2 SIGNAL).trades).filterMap (fun x => x.2)).filter
      (fun pnl => decide (pnl > 0)) = [] ∧
    ((attach_pnls (close_position cfg (execute_boil_buy cfg st sig d up kp)
        cfg.symbol d2 p2 SIGNAL).trades).filterMap (fun x => x.2)).filter
      (fun pnl => decide (pnl < 0)) = [] ∧
    (trade_stats (close_position cfg (execute_boil_buy cfg st sig d up kp)
        cfg.symbol d2 p2 SIGNAL).trades).1 = 0 ∧
    (close_position cfg (execute_boil_buy cfg st sig d up kp) cfg.symbol d2 p2
        SIGNAL).current_capital =
      st.current_capital - 2 * cfg.commission_per_trade := by
  obtain ⟨htrades, hcap⟩ :=
    buy_close_roundtrip cfg st sig d d2 up p2 kp htr hpos h1 h2 h3
  have hval : (closeTrade cfg cfg.symbol d2 p2 SIGNAL
      (buyPosition cfg d cfg.symbol up
        (pyInt (calculate_position_size cfg st sig / up)))).value =
      (buyTrade cfg sig d cfg.symbol up
        (pyInt (calculate_position_size cfg st sig / up))).value := by
    show ((pyInt (calculate_position_size cfg st sig / up) : ℚ)) *
        (p2 * (1 - cfg.slippage_pct)) =
      ((pyInt (calculate_position_size cfg st sig / up) : ℚ)) *
        (up * (1 + cfg.slippage_pct))
    rw [heq]
  obtain ⟨s1, s2, s3, s4⟩ := trade_stats_pair_breakeven
    (buyTrade cfg sig d cfg.symbol up
      (pyInt (calculate_position_size cfg st sig / up)))
    (closeTrade cfg cfg.symbol d2 p2 SIGNAL
      (buyPosition cfg d cfg.symbol up
        (pyInt (calculate_position_size cfg st sig / up))))
    rfl rfl rfl hval
  rw [htrades]
  refine ⟨s1, ?_, ?_, s4, ?_⟩
  · rw [s1]
    simp
  · rw [s1]
    simp
  · rw [hcap]
    have : (pyInt (calculate_position_size cfg st sig / up) : ℚ) *
        (p2 * (1 - cfg.slippage_pct)) =
      (pyInt (calculate_position_size cfg st sig / up) : ℚ) *
        (up * (1 + cfg.slippage_pct)) := by
      rw [heq]
    rw [this]
    ring

unseal Rat.add Rat.mul Rat.sub Rat.inv in
/-- Witness for C10: a concrete breakeven round-trip (buy at 100, sell at the
quoted price whose post-slippage proceeds equal the purchase cost). -/
theorem C10_witness :
    ((attach_pnls (close_position cfg0
        (execute_boil_buy cfg0 (reset_state cfg0) sigBuyHalf 0 100 50)
        cfg0.symbol 1 (100100 / 999) SIGNAL).trades).filterMap (fun x => x.2)) = [0] ∧
    ((attach_pnls (close_position cfg0
        (execute_boil_buy cfg0 (reset_state cfg0) sigBuyHalf 0 100 50)
        cfg0.symbol 1 (100100 / 999) SIGNAL).trades).filterMap (fun x => x.2)).filter
      (fun pnl => decide (pnl > 0)) = [] ∧
    ((attach_pnls (close_position cfg0
        (execute_boil_buy cfg0 (reset_state cfg0) sigBuyHalf 0 100 50)
        cfg0.symbol 1 (100100 / 999) SIGNAL).trades).filterMap (fun x => x.2)).filter
      (fun pnl => decide (pnl < 0)) = [] ∧
    (trade_stats (close_position cfg0
        (execute_boil_buy cfg0 (reset_state cfg0) sigBuyHalf 0 100 50)
        cfg0.symbol 1 (100100 / 999) SIGNAL).trades).1 = 0 ∧
    (close_position cfg0
        (execute_boil_buy cfg0 (reset_state cfg0) sigBuyHalf 0 100 50)
        cfg0.symbol 1 (100100 / 999) SIGNAL).current_capital =
      (reset_state cfg0).current_capital - 2 * cfg0.commission_per_trade :=
  C10_theorem cfg0 (reset_state cfg0) sigBuyHalf 0 1 100 (100100 / 999) 50
    rfl rfl (by decide) (by decide) (by decide) (by decide)

/-! ### Degenerate-input lemmas for the Performance Summarizer -/

theorem sharpe_of_degenerate (rs : List ℚ) (h : rs = [] ∨ variance_of rs = 0) :
    sharpe_of rs = 0 := by
  rcases h with h | h
  · rw [h]
    unfold sharpe_of
    rw [if_pos rfl]
  · by_cases hrs : rs = []
    · rw [hrs]
      unfold sharpe_of
      rw [if_pos rfl]
    · have hstd : std_of rs = 0 := by
        unfold std_of
        rw [h]
        simp
      unfold sharpe_of
      rw [if_neg hrs, if_pos hstd]

theorem variance_of_zero (rs : List ℚ) (h : ∀ r ∈ rs, r = 0) :
    variance_of rs = 0 := by
  have hmean : mean_of rs = 0 := by
    unfold mean_of
    rw [List.sum_eq_zero h]
    simp
  unfold variance_of
  rw [List.sum_eq_zero, zero_div]
  intro x hx
  obtain ⟨r, hr, he⟩ := List.mem_map.mp hx
  rw [← he, h r hr, hmean]
  ring

theorem daily_returns_zero (values : List (ℕ × ℚ)) (c : ℚ)
    (h : ∀ v ∈ values, v.2 = c) :
    ∀ r ∈ daily_returns_of values, r = 0 := by
  intro r hr
  unfold daily_returns_of at hr
  obtain ⟨p, hp, he⟩ := List.mem_map.mp hr
  have h1 : p.1 ∈ values := (List.of_mem_zip hp).1
  have h2 : p.2 ∈ values := List.mem_of_mem_tail (List.of_mem_zip hp).2
  rw [← he, h p.1 h1, h p.2 h2]
  simp

theorem max_drawdown_zero (values : List (ℕ × ℚ)) (c : ℚ)
    (h : ∀ v ∈ values, v.2 = c) : max_drawdown_of values = 0 := by
  unfold max_drawdown_of
  have hmap : ∀ x ∈ values.map (fun v => v.2), x = c := by
    intro x hx
    obtain ⟨v, hv, he⟩ := List.mem_map.mp hx
    rw [← he]
    exact h v hv
  cases hm : values.map (fun v => v.2) with
  | nil => rfl
  | cons v vs =>
    have hv : v = c := hmap v (by rw [hm]; exact List.mem_cons_self _ _)
    have step : ∀ (l : List ℚ) (acc : ℚ × ℚ), (∀ x ∈ l, x = c) →
        acc.1 = c → acc.2 = 0 →
        (l.foldl (fun acc value =>
          let peak := if value > acc.1 then value else acc.1
          (peak, max acc.2 ((peak - value) / peak))) acc).2 = 0 := by
      intro l
      induction l with
      | nil =>
        intro acc _ _ h2
        exact h2
      | cons x t ih =>
        intro acc hl h1 h2
        rw [List.foldl_cons]
        have hx : x = c := hl x (List.mem_cons_self _ _)
        have h1a : ((fun (acc : ℚ × ℚ) (value : ℚ) =>
            let peak := if value > acc.1 then value else acc.1
            (peak, max acc.2 ((peak - value) / peak))) acc x).1 = c := by
          dsimp only
          rw [hx, h1, if_neg (lt_irrefl c)]
        have h2a : ((fun (acc : ℚ × ℚ) (value : ℚ) =>
            let peak := if value > acc.1 then value else acc.1
            (peak, max acc.2 ((peak - value) / peak))) acc x).2 = 0 := by
          dsimp only
          rw [hx, h1, if_neg (lt_irrefl c), sub_self, zero_div, h2, max_self]
        exact ih _ (fun y hy => hl y (List.mem_cons_of_mem _ hy)) h1a h2a
    exact step (v :: vs) (v, 0)
      (fun x hx => hmap x (by rw [hm]; exact hx)) hv rfl

theorem trade_stats_nil : trade_stats [] = (0, 0, 0, 0) := rfl

/-! ### Zero-trade runs stay untraded -/

theorem check_stop_losses_of_no_stops (cfg : Config) (st : EngineState) (d : ℕ)
    (up kp : ℚ) (h : st.active_stops = []) :
    check_stop_losses cfg st d up kp = st := by
  unfold check_stop_losses
  rw [h]
  rfl

theorem process_buy_signal_of_empty (cfg : Config) (st : EngineState)
    (sig : Signal) (d : ℕ) (up kp : ℚ) (h : st.positions = []) :
    process_buy_signal cfg st sig d up kp = st ∨
    ∃ tr, (process_buy_signal cfg st sig d up kp).trades = st.trades ++ [tr] := by
  unfold process_buy_signal
  split
  · rw [execute_boil_buy_decomp, boil_pre_of_empty cfg st d up kp h]
    rcases buy_tail_trades cfg st sig d up cfg.symbol with h2 | ⟨q, h2⟩
    · exact Or.inl h2
    · exact Or.inr ⟨_, h2⟩
  · split
    · rw [execute_kold_buy_decomp, kold_pre_of_empty cfg st d up kp h]
      rcases buy_tail_trades cfg st sig d kp cfg.inverse_symbol with h2 | ⟨q, h2⟩
      · exact Or.inl h2
      · exact Or.inr ⟨_, h2⟩
    · exact Or.inl rfl

theorem untraded_process_day (cfg : Config) (st : EngineState) (d : ℕ)
    (signals : List Signal) (u k : List (ℕ × ℚ)) (h : Untraded cfg st) :
    Untraded cfg (process_day cfg st d signals u k) ∨
    (process_day cfg st d signals u k).trades ≠ [] := by
  obtain ⟨hc, hp, hs, hv⟩ := h
  unfold process_day
  cases hgu : get_price_for_date u d with
  | none => exact Or.inl ⟨hc, hp, hs, hv⟩
  | some up =>
    cases hgk : get_price_for_date k d with
    | none => exact Or.inl ⟨hc, hp, hs, hv⟩
    | some kp =>
      dsimp only
      have hpv : calculate_portfolio_value cfg st up kp = cfg.initial_capital := by
        unfold calculate_portfolio_value
        rw [hp]
        exact hc
      generalize hst1 : ({ st with daily_portfolio_values :=
        st.daily_portfolio_values ++
          [(d, calculate_portfolio_value cfg st up kp)] } : EngineState) = st1
      have h1cap : st1.current_capital = cfg.initial_capital := by
        rw [← hst1]
        exact hc
      have h1pos : st1.positions = [] := by
        rw [← hst1]
        exact hp
      have h1stops : st1.active_stops = [] := by
        rw [← hst1]
        exact hs
      have h1vals : ∀ v ∈ st1.daily_portfolio_values, v.2 = cfg.initial_capital := by
        rw [← hst1]
        intro v hv2
        rcases List.mem_append.mp hv2 with h2 | h2
        · exact hv v h2
        · rw [List.mem_singleton.mp h2]
          exact hpv
      have h1un : Untraded cfg st1 := ⟨h1cap, h1pos, h1stops, h1vals⟩
      rw [check_stop_losses_of_no_stops cfg st1 d up kp h1stops]
      cases hsg : get_signal_for_date signals d with
      | none => exact Or.inl h1un
      | some sig =>
        dsimp only
        by_cases hb : sig.action = BUY
        · rw [if_pos hb]
          rcases process_buy_signal_of_empty cfg st1 sig d up kp h1pos with
            h2 | ⟨tr, h2⟩
          · rw [h2]
            exact Or.inl h1un
          · right
            rw [h2]
            simp
        · rw [if_neg hb]
          exact Or.inl h1un

theorem run_backtest_untraded (cfg : Config) (signals : List Signal)
    (u k : List (ℕ × ℚ)) (s e : ℕ)
    (h : (run_backtest cfg signals u k s e).trades = []) :
    Untraded cfg (run_backtest cfg signals u k s e) := by
  unfold run_backtest
  unfold run_backtest at h
  dsimp only at h ⊢
  have hinit : Untraded cfg (reset_state cfg) :=
    ⟨rfl, rfl, rfl, by intro v hv; exact absurd hv (List.not_mem_nil v)⟩
  have hfold := foldl_preserves
    (fun st => Untraded cfg st ∨ st.trades ≠ [])
    (fun st d => process_day cfg st d signals u k)
    (fun st d hst => by
      show Untraded cfg (process_day cfg st d signals u k) ∨
        (process_day cfg st d signals u k).trades ≠ []
      rcases hst with hst | hst
      · exact untraded_process_day cfg st d signals u k hst
      · right
        obtain ⟨ts, hts⟩ := process_day_trades_mono cfg st d signals u k
        rw [hts]
        intro habs
        exact hst (List.append_eq_nil.mp habs).1)
    ((List.range (e + 1 - s)).map (fun i => s + i)) (reset_state cfg)
    (Or.inl hinit)
  obtain ⟨ts, hts⟩ := close_all_positions_trades_mono cfg
    (((List.range (e + 1 - s)).map (fun i => s + i)).foldl
      (fun st d => process_day cfg st d signals u k) (reset_state cfg)) u k e
  rw [hts] at h
  have hMtr := (List.append_eq_nil.mp h).1
  have hMun : Untraded cfg (((List.range (e + 1 - s)).map (fun i => s + i)).foldl
      (fun st d => process_day cfg st d signals u k) (reset_state cfg)) := by
    rcases hfold with h2 | h2
    · exact h2
    · exact absurd hMtr h2
  rw [close_all_positions_of_empty cfg _ u k e hMun.2.1]
  exact hMun

/-! ### Claim C9 -/

/-- C9: degenerate-input behavior of the Performance Summarizer. A run with
zero trades yields win rate, profit factor, average win/loss all 0, maximum
drawdown 0 and Sharpe ratio 0, with no failure; a trade log with at least one
completed round-trip and no losing round-trip yields profit factor ⊤ (float
infinity); the Sharpe ratio is 0 whenever the daily-return list is empty or
its standard deviation is 0. -/
theorem C9_theorem :
    (∀ (cfg : Config) (signals : List Signal) (u k : List (ℕ × ℚ)) (s e : ℕ),
      (run_backtest cfg signals u k s e).trades = [] →
      trade_stats (run_backtest cfg signals u k s e).trades = (0, 0, 0, 0) ∧
      max_drawdown_of (run_backtest cfg signals u k s e).daily_portfolio_values = 0 ∧
      sharpe_of (daily_returns_of
        (run_backtest cfg signals u k s e).daily_portfolio_values) = 0) ∧
    (∀ trades : List Trade,
      (attach_pnls trades).filterMap (fun x => x.2) ≠ [] →
      ((attach_pnls trades).filterMap (fun x => x.2)).filter
        (fun pnl => decide (pnl < 0)) = [] →
      (trade_stats trades).2.2.2 = ⊤) ∧
    (∀ rs : List ℚ, rs = [] ∨ variance_of rs = 0 → sharpe_of rs = 0) := by
  refine ⟨?_, ?_, sharpe_of_degenerate⟩
  · intro cfg signals u k s e h
    obtain ⟨hc, hp, hs, hv⟩ := run_backtest_untraded cfg signals u k s e h
    refine ⟨by rw [h]; exact trade_stats_nil, ?_, ?_⟩
    · exact max_drawdown_zero _ cfg.initial_capital hv
    · apply sharpe_of_degenerate
      right
      exact variance_of_zero _ (daily_returns_zero _ cfg.initial_capital hv)
  · intro trades h1 h2
    have hne : trades ≠ [] := by
      intro habs
      apply h1
      rw [habs]
      rfl
    unfold trade_stats
    rw [if_neg hne]
    dsimp only
    rw [if_neg h1, h2]
    norm_num

unseal Rat.add Rat.mul Rat.sub Rat.inv in
/-- Witness for C9: a zero-trade run, a one-round-trip winning log, and the
empty return list. -/
theorem C9_witness :
    (trade_stats (run_backtest cfg0 [] ungDf0 koldDf0 0 0).trades = (0, 0, 0, 0) ∧
      max_drawdown_of (run_backtest cfg0 [] ungDf0 koldDf0 0 0).daily_portfolio_values = 0 ∧
      sharpe_of (daily_returns_of
        (run_backtest cfg0 [] ungDf0 koldDf0 0 0).daily_portfolio_values) = 0) ∧
    (trade_stats [tbC9, tcC9]).2.2.2 = ⊤ ∧
    sharpe_of [] = 0 :=
  ⟨C9_theorem.1 cfg0 [] ungDf0 koldDf0 0 0 (by decide),
    C9_theorem.2.1 [tbC9, tcC9] (by decide) (by decide),
    C9_theorem.2.2 [] (Or.inl rfl)⟩

/-! ### Position-invariant helpers -/

theorem keys_pair_nil (l : List (String × α)) (s i : String)
    (hk : ∀ p ∈ l, p.1 = s ∨ p.1 = i)
    (hs : dictGet l s = none) (hi : dictGet l i = none) : l = [] := by
  cases l with
  | nil => rfl
  | cons p t =>
    rcases hk p (List.mem_cons_self _ _) with h | h
    · rw [dictGet_cons, if_pos h] at hs
      exact absurd hs (by simp)
    · rw [dictGet_cons, if_pos h] at hi
      exact absurd hi (by simp)

theorem lookup_single (l : List (String × α)) (i : String) (v : α)
    (hlen : l.length ≤ 1) (hget : dictGet l i = some v) : l = [(i, v)] := by
  cases l with
  | nil => exact absurd hget (by simp [dictGet])
  | cons p t =>
    cases t with
    | nil =>
      rw [dictGet_cons] at hget
      by_cases hp : p.1 = i
      · rw [if_pos hp] at hget
        have h2 : p.2 = v := Option.some.inj hget
        rw [show p = (p.1, p.2) from rfl, hp, h2]
      · rw [if_neg hp] at hget
        exact absurd hget (by simp [dictGet])
    | cons q r =>
      rw [List.length_cons, List.length_cons] at hlen
      omega

theorem close_position_lookup_self (cfg : Config) (st : EngineState)
    (symbol : String) (d : ℕ) (price : ℚ) (reason : String) :
    dictGet (close_position cfg st symbol d price reason).positions symbol = none := by
  cases h : dictGet st.positions symbol with
  | none =>
    rw [close_position_of_none cfg st symbol d price reason h]
    exact h
  | some pos =>
    rw [close_position_of_some cfg st symbol d price reason pos h]
    exact dictGet_dictDel_self _ _

theorem posInv_close_position (cfg : Config) (st : EngineState) (symbol : String)
    (d : ℕ) (price : ℚ) (reason : String) (h : PosInv cfg st) :
    PosInv cfg (close_position cfg st symbol d price reason) :=
  ⟨fun p hp => h.1 p (close_position_mem_positions cfg st symbol d price reason p hp),
    close_position_length_positions cfg st symbol d price reason 1 h.2⟩

theorem posInv_check_stop_item (cfg : Config) (d : ℕ) (up kp : ℚ)
    (st : EngineState) (item : String × StopInfo) (h : PosInv cfg st) :
    PosInv cfg (check_stop_item cfg d up kp st item) :=
  ⟨fun p hp => h.1 p (check_stop_item_mem_positions cfg d up kp st item p hp),
    le_trans (check_stop_item_length_positions cfg d up kp st item) h.2⟩

theorem posInv_check_stop_losses (cfg : Config) (st : EngineState) (d : ℕ)
    (up kp : ℚ) (h : PosInv cfg st) :
    PosInv cfg (check_stop_losses cfg st d up kp) := by
  unfold check_stop_losses
  exact foldl_preserves (fun s => PosInv cfg s) (check_stop_item cfg d up kp)
    (fun s a hs => by
      show PosInv cfg (check_stop_item cfg d up kp s a)
      exact posInv_check_stop_item cfg d up kp s a hs)
    st.active_stops st h

theorem boil_pre_mem_positions (cfg : Config) (st : EngineState) (d : ℕ)
    (up kp : ℚ) (p : String × Position)
    (hp : p ∈ (boil_pre cfg st d up kp).positions) : p ∈ st.positions := by
  unfold boil_pre at hp
  dsimp only at hp
  split at hp <;> split at hp <;>
    first
      | exact hp
      | (have h2 := close_position_mem_positions _ _ _ _ _ _ _ hp
         exact h2)
      | (have h2 := close_position_mem_positions _ _ _ _ _ _ _ hp
         have h3 := close_position_mem_positions _ _ _ _ _ _ _ h2
         exact h3)

theorem kold_pre_mem_positions (cfg : Config) (st : EngineState) (d : ℕ)
    (up kp : ℚ) (p : String × Position)
    (hp : p ∈ (kold_pre cfg st d up kp).positions) : p ∈ st.positions := by
  unfold kold_pre at hp
  dsimp only at hp
  split at hp <;> split at hp <;>
    first
      | exact hp
      | (have h2 := close_position_mem_positions _ _ _ _ _ _ _ hp
         exact h2)
      | (have h2 := close_position_mem_positions _ _ _ _ _ _ _ hp
         have h3 := close_position_mem_positions _ _ _ _ _ _ _ h2
         exact h3)

theorem boil_pre_lookup_none (cfg : Config) (st : EngineState) (d : ℕ)
    (up kp : ℚ) (hne : cfg.symbol ≠ cfg.inverse_symbol) :
    dictGet (boil_pre cfg st d up kp).positions cfg.symbol = none ∧
    dictGet (boil_pre cfg st d up kp).positions cfg.inverse_symbol = none := by
  have hinv_ne : cfg.inverse_symbol ≠ cfg.symbol := fun h2 => hne h2.symm
  unfold boil_pre
  dsimp only
  by_cases c1 : dictContains st.positions cfg.inverse_symbol
  · rw [if_pos c1]
    by_cases c2 : dictContains
        (close_position cfg st cfg.inverse_symbol d kp MUTUAL_EXCLUSIVITY).positions
        cfg.symbol
    · rw [if_pos c2]
      constructor
      · exact close_position_lookup_self _ _ _ _ _ _
      · rw [close_position_positions_other _ _ _ _ _ _ _ hinv_ne]
        exact close_position_lookup_self _ _ _ _ _ _
    · rw [if_neg c2]
      constructor
      · exact dictGet_eq_none_of_not_contains _ _ (Bool.not_eq_true _ ▸ c2)
      · exact close_position_lookup_self _ _ _ _ _ _
  · rw [if_neg c1]
    by_cases c2 : dictContains st.positions cfg.symbol
    · rw [if_pos c2]
      constructor
      · exact close_position_lookup_self _ _ _ _ _ _
      · rw [close_position_positions_other _ _ _ _ _ _ _ hinv_ne]
        exact dictGet_eq_none_of_not_contains _ _ (Bool.not_eq_true _ ▸ c1)
    · rw [if_neg c2]
      constructor
      · exact dictGet_eq_none_of_not_contains _ _ (Bool.not_eq_true _ ▸ c2)
      · exact dictGet_eq_none_of_not_contains _ _ (Bool.not_eq_true _ ▸ c1)

theorem kold_pre_lookup_none (cfg : Config) (st : EngineState) (d : ℕ)
    (up kp : ℚ) (hne : cfg.symbol ≠ cfg.inverse_symbol) :
    dictGet (kold_pre cfg st d up kp).positions cfg.symbol = none ∧
    dictGet (kold_pre cfg st d up kp).positions cfg.inverse_symbol = none := by
  have hinv_ne : cfg.inverse_symbol ≠ cfg.symbol := fun h2 => hne h2.symm
  unfold kold_pre
  dsimp only
  by_cases c1 : dictContains st.positions cfg.symbol
  · rw [if_pos c1]
    by_cases c2 : dictContains
        (close_position cfg st cfg.symbol d up MUTUAL_EXCLUSIVITY).positions
        cfg.inverse_symbol
    · rw [if_pos c2]
      constructor
      · rw [close_position_positions_other _ _ _ _ _ _ _ hne]
        exact close_position_lookup_self _ _ _ _ _ _
      · exact close_position_lookup_self _ _ _ _ _ _
    · rw [if_neg c2]
      constructor
      · exact close_position_lookup_self _ _ _ _ _ _
      · exact dictGet_eq_none_of_not_contains _ _ (Bool.not_eq_true _ ▸ c2)
  · rw [if_neg c1]
    by_cases c2 : dictContains st.positions cfg.inverse_symbol
    · rw [if_pos c2]
      constructor
      · rw [close_position_positions_other _ _ _ _ _ _ _ hne]
        exact dictGet_eq_none_of_not_contains _ _ (Bool.not_eq_true _ ▸ c1)
      · exact close_position_lookup_self _ _ _ _ _ _
    · rw [if_neg c2]
      constructor
      · exact dictGet_eq_none_of_not_contains _ _ (Bool.not_eq_true _ ▸ c1)
      · exact dictGet_eq_none_of_not_contains _ _ (Bool.not_eq_true _ ▸ c2)

theorem posInv_buy_tail_of_nil (cfg : Config) (st2 : EngineState) (sig : Signal)
    (d : ℕ) (price : ℚ) (symbol : String)
    (hsym : symbol = cfg.symbol ∨ symbol = cfg.inverse_symbol)
    (hnil : st2.positions = []) :
    PosInv cfg (buy_tail cfg st2 sig d price symbol) := by
  rcases buy_tail_positions cfg st2 sig d price symbol with h | ⟨q, h⟩
  · constructor
    · intro p hp
      rw [h, hnil] at hp
      exact absurd hp (List.not_mem_nil p)
    · rw [h, hnil]
      simp
  · constructor
    · intro p hp
      rw [h, hnil] at hp
      rcases mem_dictSet _ _ _ _ hp with he | he
      · rw [he]
        exact hsym
      · exact absurd he (List.not_mem_nil p)
    · rw [h, hnil]
      simp [dictSet, dictContains]

theorem posInv_execute_boil_buy (cfg : Config) (st : EngineState) (sig : Signal)
    (d : ℕ) (up kp : ℚ) (hne : cfg.symbol ≠ cfg.inverse_symbol)
    (h : PosInv cfg st) :
    PosInv cfg (execute_boil_buy cfg st sig d up kp) := by
  rw [execute_boil_buy_decomp]
  have hnil : (boil_pre cfg st d up kp).positions = [] :=
    keys_pair_nil _ cfg.symbol cfg.inverse_symbol
      (fun p hp => h.1 p (boil_pre_mem_positions cfg st d up kp p hp))
      (boil_pre_lookup_none cfg st d up kp hne).1
      (boil_pre_lookup_none cfg st d up kp hne).2
  exact posInv_buy_tail_of_nil cfg _ sig d up cfg.symbol (Or.inl rfl) hnil

theorem posInv_execute_kold_buy (cfg : Config) (st : EngineState) (sig : Signal)
    (d : ℕ) (up kp : ℚ) (hne : cfg.symbol ≠ cfg.inverse_symbol)
    (h : PosInv cfg st) :
    PosInv cfg (execute_kold_buy cfg st sig d up kp) := by
  rw [execute_kold_buy_decomp]
  have hnil : (kold_pre cfg st d up kp).positions = [] :=
    keys_pair_nil _ cfg.symbol cfg.inverse_symbol
      (fun p hp => h.1 p (kold_pre_mem_positions cfg st d up kp p hp))
      (kold_pre_lookup_none cfg st d up kp hne).1
      (kold_pre_lookup_none cfg st d up kp hne).2
  exact posInv_buy_tail_of_nil cfg _ sig d kp cfg.inverse_symbol (Or.inr rfl) hnil

theorem posInv_process_buy_signal (cfg : Config) (st : EngineState) (sig : Signal)
    (d : ℕ) (up kp : ℚ) (hne : cfg.symbol ≠ cfg.inverse_symbol)
    (h : PosInv cfg st) :
    PosInv cfg (process_buy_signal cfg st sig d up kp) := by
  unfold process_buy_signal
  split
  · exact posInv_execute_boil_buy cfg st sig d up kp hne h
  · split
    · exact posInv_execute_kold_buy cfg st sig d up kp hne h
    · exact h

theorem posInv_process_day (cfg : Config) (st : EngineState) (d : ℕ)
    (signals : List Signal) (u k : List (ℕ × ℚ))
    (hne : cfg.symbol ≠ cfg.inverse_symbol) (h : PosInv cfg st) :
    PosInv cfg (process_day cfg st d signals u k) := by
  unfold process_day
  cases hgu : get_price_for_date u d with
  | none => exact h
  | some up =>
    cases hgk : get_price_for_date k d with
    | none => exact h
    | some kp =>
      dsimp only
      have h1 : PosInv cfg ({ st with daily_portfolio_values :=
          st.daily_portfolio_values ++
            [(d, calculate_portfolio_value cfg st up kp)] } : EngineState) := h
      have h2 := posInv_check_stop_losses cfg _ d up kp h1
      cases hsg : get_signal_for_date signals d with
      | none => exact h2
      | some sig =>
        dsimp only
        by_cases hb : sig.action = BUY
        · rw [if_pos hb]
          exact posInv_process_buy_signal cfg _ sig d up kp hne h2
        · rw [if_neg hb]
          exact h2

theorem posInv_close_all_positions (cfg : Config) (st : EngineState)
    (u k : List (ℕ × ℚ)) (e : ℕ) (h : PosInv cfg st) :
    PosInv cfg (close_all_positions cfg st u k e) := by
  unfold close_all_positions
  dsimp only
  refine foldl_preserves (fun s => PosInv cfg s) _ ?_ _ st h
  intro s a hs
  show PosInv cfg (if a = cfg.symbol ∧ truthyPrice (get_price_for_date u e) = true then
      close_position cfg s a e ((get_price_for_date u e).getD 0) END_OF_BACKTEST
    else if a = cfg.inverse_symbol ∧ truthyPrice (get_price_for_date k e) = true then
      close_position cfg s a e ((get_price_for_date k e).getD 0) END_OF_BACKTEST
    else s)
  split
  · exact posInv_close_position cfg s a e _ END_OF_BACKTEST hs
  · split
    · exact posInv_close_position cfg s a e _ END_OF_BACKTEST hs
    · exact hs

theorem posInv_run_backtest (cfg : Config) (signals : List Signal)
    (u k : List (ℕ × ℚ)) (s e : ℕ) (hne : cfg.symbol ≠ cfg.inverse_symbol) :
    PosInv cfg (run_backtest cfg signals u k s e) := by
  unfold run_backtest
  dsimp only
  apply posInv_close_all_positions
  refine foldl_preserves (fun st => PosInv cfg st) _ ?_ _ (reset_state cfg)
    ⟨fun p hp => absurd hp (List.not_mem_nil p), by simp [reset_state]⟩
  intro st d hst
  show PosInv cfg (process_day cfg st d signals u k)
  exact posInv_process_day cfg st d signals u k hne hst

/-! ### Claim C3 -/

/-- C3: mutual exclusivity. With distinct configured symbols, the invariant
"all position keys are among the two configured instruments and at most one
position is open" is preserved by every position-changing operation (close,
both buy executors, the daily stop pass, a whole processed day), holds at
every day boundary of a whole run, and a BUY targeting either instrument
while the other instrument's position is open first appends a SELL with
reason MUTUAL_EXCLUSIVITY for the full quantity of the other position,
followed (at most) by the new BUY trade. -/
theorem C3_theorem (cfg : Config) (hne : cfg.symbol ≠ cfg.inverse_symbol) :
    (∀ st symbol d price reason, PosInv cfg st →
      PosInv cfg (close_position cfg st symbol d price reason)) ∧
    (∀ st sig d up kp, PosInv cfg st →
      PosInv cfg (execute_boil_buy cfg st sig d up kp) ∧
      PosInv cfg (execute_kold_buy cfg st sig d up kp)) ∧
    (∀ st d up kp, PosInv cfg st → PosInv cfg (check_stop_losses cfg st d up kp)) ∧
    (∀ st d signals u k, PosInv cfg st →
      PosInv cfg (process_day cfg st d signals u k)) ∧
    (∀ signals u k s e, PosInv cfg (run_backtest cfg signals u k s e)) ∧
    (∀ st sig d up kp pos, PosInv cfg st →
      dictGet st.positions cfg.inverse_symbol = some pos →
      ∃ tr : Trade, tr.action = SELL ∧ tr.symbol = cfg.inverse_symbol ∧
        tr.reason = MUTUAL_EXCLUSIVITY ∧ tr.quantity = pos.quantity ∧
        ((execute_boil_buy cfg st sig d up kp).trades = st.trades ++ [tr] ∨
          ∃ tb : Trade, tb.action = BUY ∧ tb.symbol = cfg.symbol ∧
            tb.reason = SIGNAL ∧
            (execute_boil_buy cfg st sig d up kp).trades = st.trades ++ [tr, tb])) ∧
    (∀ st sig d up kp pos, PosInv cfg st →
      dictGet st.positions cfg.symbol = some pos →
      ∃ tr : Trade, tr.action = SELL ∧ tr.symbol = cfg.symbol ∧
        tr.reason = MUTUAL_EXCLUSIVITY ∧ tr.quantity = pos.quantity ∧
        ((execute_kold_buy cfg st sig d up kp).trades = st.trades ++ [tr] ∨
          ∃ tb : Trade, tb.action = BUY ∧ tb.symbol = cfg.inverse_symbol ∧
            tb.reason = SIGNAL ∧
            (execute_kold_buy cfg st sig d up kp).trades = st.trades ++ [tr, tb])) := by
  refine ⟨fun st symbol d price reason h =>
      posInv_close_position cfg st symbol d price reason h,
    fun st sig d up kp h => ⟨posInv_execute_boil_buy cfg st sig d up kp hne h,
      posInv_execute_kold_buy cfg st sig d up kp hne h⟩,
    fun st d up kp h => posInv_check_stop_losses cfg st d up kp h,
    fun st d signals u k h => posInv_process_day cfg st d signals u k hne h,
    fun signals u k s e => posInv_run_backtest cfg signals u k s e hne,
    ?_, ?_⟩
  · intro st sig d up kp pos hinv hget
    have hinv_ne : cfg.inverse_symbol ≠ cfg.symbol := fun h2 => hne h2.symm
    rw [execute_boil_buy_decomp]
    have hsingle : st.positions = [(cfg.inverse_symbol, pos)] :=
      lookup_single _ _ _ hinv.2 hget
    have hcont : dictContains st.positions cfg.inverse_symbol = true := by
      rw [dictContains_eq_isSome, hget]
      rfl
    have hclose := close_position_of_some cfg st cfg.inverse_symbol d kp
      MUTUAL_EXCLUSIVITY pos hget
    have hnosym : dictGet
        (close_position cfg st cfg.inverse_symbol d kp MUTUAL_EXCLUSIVITY).positions
        cfg.symbol = none := by
      rw [close_position_positions_other _ _ _ _ _ _ _ hne, hsingle, dictGet_cons,
        if_neg hinv_ne]
      rfl
    have hpre : boil_pre cfg st d up kp =
        close_position cfg st cfg.inverse_symbol d kp MUTUAL_EXCLUSIVITY := by
      unfold boil_pre
      dsimp only
      rw [if_pos hcont, if_neg (by
        rw [dictContains_eq_isSome, hnosym]
        simp)]
    rw [hpre]
    refine ⟨closeTrade cfg cfg.inverse_symbol d kp MUTUAL_EXCLUSIVITY pos,
      rfl, rfl, rfl, rfl, ?_⟩
    have hCtr : (close_position cfg st cfg.inverse_symbol d kp
        MUTUAL_EXCLUSIVITY).trades = st.trades ++
          [closeTrade cfg cfg.inverse_symbol d kp MUTUAL_EXCLUSIVITY pos] := by
      rw [hclose]
    rcases buy_tail_trades cfg
        (close_position cfg st cfg.inverse_symbol d kp MUTUAL_EXCLUSIVITY)
        sig d up cfg.symbol with h2 | ⟨q, h2⟩
    · left
      rw [h2, hCtr]
    · right
      refine ⟨buyTrade cfg sig d cfg.symbol up q, rfl, rfl, rfl, ?_⟩
      rw [h2, hCtr, List.append_assoc]
      rfl
  · intro st sig d up kp pos hinv hget
    have hinv_ne : cfg.inverse_symbol ≠ cfg.symbol := fun h2 => hne h2.symm
    rw [execute_kold_buy_decomp]
    have hsingle : st.positions = [(cfg.symbol, pos)] :=
      lookup_single _ _ _ hinv.2 hget
    have hcont : dictContains st.positions cfg.symbol = true := by
      rw [dictContains_eq_isSome, hget]
      rfl
    have hclose := close_position_of_some cfg st cfg.symbol d up
      MUTUAL_EXCLUSIVITY pos hget
    have hnoinv : dictGet
        (close_position cfg st cfg.symbol d up MUTUAL_EXCLUSIVITY).positions
        cfg.inverse_symbol = none := by
      rw [close_position_positions_other _ _ _ _ _ _ _ hinv_ne, hsingle,
        dictGet_cons, if_neg hne]
      rfl
    have hpre : kold_pre cfg st d up kp =
        close_position cfg st cfg.symbol d up MUTUAL_EXCLUSIVITY := by
      unfold kold_pre
      dsimp only
      rw [if_pos hcont, if_neg (by
        rw [dictContains_eq_isSome, hnoinv]
        simp)]
    rw [hpre]
    refine ⟨closeTrade cfg cfg.symbol d up MUTUAL_EXCLUSIVITY pos,
      rfl, rfl, rfl, rfl, ?_⟩
    have hCtr : (close_position cfg st cfg.symbol d up
        MUTUAL_EXCLUSIVITY).trades = st.trades ++
          [closeTrade cfg cfg.symbol d up MUTUAL_EXCLUSIVITY pos] := by
      rw [hclose]
    rcases buy_tail_trades cfg
        (close_position cfg st cfg.symbol d up MUTUAL_EXCLUSIVITY)
        sig d kp cfg.inverse_symbol with h2 | ⟨q, h2⟩
    · left
      rw [h2, hCtr]
    · right
      refine ⟨buyTrade cfg sig d cfg.inverse_symbol kp q, rfl, rfl, rfl, ?_⟩
      rw [h2, hCtr, List.append_assoc]
      rfl

/-- Witness for C3: the invariant at the final state of a concrete run. -/
theorem C3_witness :
    PosInv cfg0 (run_backtest cfg0 [sigBuyHalf] ungDf0 koldDf0 0 0) :=
  (C3_theorem cfg0 (by decide)).2.2.2.2.1 [sigBuyHalf] ungDf0 koldDf0 0 0

/-! ### Claim C7 -/

theorem dictGet_mem (l : List (String × α)) (k : String) (v : α)
    (h : dictGet l k = some v) : (k, v) ∈ l := by
  induction l with
  | nil => exact absurd h (by simp [dictGet])
  | cons p t ih =>
    rw [dictGet_cons] at h
    by_cases hp : p.1 = k
    · rw [if_pos hp] at h
      have h2 : p.2 = v := Option.some.inj h
      have h3 : p = (k, v) := by
        rw [show p = (p.1, p.2) from rfl, hp, h2]
      rw [← h3]
      exact List.mem_cons_self _ _
    · rw [if_neg hp] at h
      exact List.mem_cons_of_mem _ (ih h)

theorem close_position_stops_cases (cfg : Config) (st : EngineState)
    (symbol : String) (d : ℕ) (price : ℚ) (reason : String) :
    close_position cfg st symbol d price reason = st ∨
    dictGet (close_position cfg st symbol d price reason).active_stops symbol
      = none := by
  cases h : dictGet st.positions symbol with
  | none => exact Or.inl (close_position_of_none cfg st symbol d price reason h)
  | some pos =>
    right
    rw [close_position_of_some cfg st symbol d price reason pos h]
    exact dictGet_dictDel_self _ _

/-- C7: trailing-stop monotonicity across one daily stop pass. If a symbol's
stop is active (trailing flag set) before `_check_stop_losses` runs, then
afterwards either the position was closed (the stop is gone) or the stop is
still active and its trailing price did not decrease. -/
theorem C7_theorem (cfg : Config) (st : EngineState) (d : ℕ) (up kp : ℚ)
    (sym : String) (si : StopInfo)
    (hnd : (st.active_stops.map Prod.fst).Nodup)
    (hsi : dictGet st.active_stops sym = some si)
    (ht : si.trailing_stop = true) :
    dictGet (check_stop_losses cfg st d up kp).active_stops sym = none ∨
    ∃ si2, dictGet (check_stop_losses cfg st d up kp).active_stops sym = some si2 ∧
      si2.trailing_stop = true ∧
      si.trailing_stop_price.getD 0 ≤ si2.trailing_stop_price.getD 0 := by
  unfold check_stop_losses
  obtain ⟨l1, l2, hsplit⟩ := List.append_of_mem (dictGet_mem _ _ _ hsi)
  have hnd2 : ((l1 ++ (sym, si) :: l2).map Prod.fst).Nodup := by
    rw [← hsplit]
    exact hnd
  rw [List.map_append, List.map_cons, List.nodup_append] at hnd2
  have hl1 : ∀ q ∈ l1, q.1 ≠ sym := by
    intro q hq heq
    have h4 := hnd2.2.2 (List.mem_map_of_mem Prod.fst hq)
    rw [heq] at h4
    exact h4 (List.mem_cons_self _ _)
  have hl2 : ∀ q ∈ l2, q.1 ≠ sym := by
    intro q hq heq
    have h4 : sym ∉ List.map Prod.fst l2 := by
      have h5 := (List.nodup_cons.mp hnd2.2.1).1
      simpa using h5
    exact h4 (heq ▸ List.mem_map_of_mem Prod.fst hq)
  have phaseA : ∀ (items : List (String × StopInfo)) (s0 : EngineState),
      (∀ q ∈ items, q.1 ≠ sym) →
      dictGet (items.foldl (check_stop_item cfg d up kp) s0).active_stops sym =
        dictGet s0.active_stops sym := by
    intro items
    induction items with
    | nil => exact fun s0 _ => rfl
    | cons q t ih =>
      intro s0 hq
      rw [List.foldl_cons,
        ih _ (fun r hr => hq r (List.mem_cons_of_mem _ hr)),
        check_stop_item_stops_other cfg d up kp s0 q sym
          (fun he => (hq q (List.mem_cons_self _ _)) he.symm)]
  have phaseC : ∀ (items : List (String × StopInfo)) (s0 : EngineState),
      (∀ q ∈ items, q.1 ≠ sym) →
      (dictGet s0.active_stops sym = none ∨
        ∃ si2, dictGet s0.active_stops sym = some si2 ∧ si2.trailing_stop = true ∧
          si.trailing_stop_price.getD 0 ≤ si2.trailing_stop_price.getD 0) →
      (dictGet (items.foldl (check_stop_item cfg d up kp) s0).active_stops sym = none ∨
        ∃ si2, dictGet (items.foldl (check_stop_item cfg d up kp) s0).active_stops sym
            = some si2 ∧ si2.trailing_stop = true ∧
          si.trailing_stop_price.getD 0 ≤ si2.trailing_stop_price.getD 0) := by
    intro items s0 hq hP
    rw [phaseA items s0 hq]
    exact hP
  rw [hsplit, List.foldl_append, List.foldl_cons]
  apply phaseC l2 _ hl2
  have hs1 : dictGet ((l1.foldl (check_stop_item cfg d up kp) st)).active_stops sym
      = some si := by
    rw [phaseA l1 st hl1]
    exact hsi
  -- the iteration for our own item, with live value equal to the snapshot
  generalize (l1.foldl (check_stop_item cfg d up kp) st) = s1 at hs1 ⊢
  rw [check_stop_item_decomp]
  split
  · left
    show dictGet (dictDel s1.active_stops sym) sym = none
    exact dictGet_dictDel_self _ _
  · cases hpr : stop_price_for cfg sym up kp with
    | none =>
      exact Or.inr ⟨si, hs1, ht, le_refl _⟩
    | some pr =>
      dsimp only
      unfold stop_checks_at
      by_cases hsl : pr ≤ si.stop_loss_price
      · rw [if_pos hsl]
        rcases close_position_stops_cases cfg s1 sym d pr STOP_LOSS with h2 | h2
        · rw [h2]
          exact Or.inr ⟨si, hs1, ht, le_refl _⟩
        · exact Or.inl h2
      · rw [if_neg hsl]
        by_cases htp : pr ≥ si.take_profit_price
        · rw [if_pos htp]
          rcases close_position_stops_cases cfg s1 sym d pr TAKE_PROFIT with h2 | h2
          · rw [h2]
            exact Or.inr ⟨si, hs1, ht, le_refl _⟩
          · exact Or.inl h2
        · rw [if_neg htp]
          dsimp only
          rw [if_neg (by rw [ht]; simp)]
          simp only [hs1]
          rw [if_pos ht]
          unfold update_trailing_stop
          simp only [hs1]
          by_cases hup2 : pr * (1 - cfg.trailing_stop_pct) >
              si.trailing_stop_price.getD 0
          · rw [if_pos hup2]
            split
            · rcases close_position_stops_cases cfg _ sym d pr TRAILING_STOP with
                h2 | h2
              · rw [h2]
                refine Or.inr ⟨{ si with trailing_stop_price := some (pr * (1 - cfg.trailing_stop_pct)) }, ?_, ht, le_of_lt hup2⟩
                show dictGet (dictSet s1.active_stops sym _) sym = _
                exact dictGet_dictSet_self _ _ _
              · exact Or.inl h2
            · refine Or.inr ⟨{ si with trailing_stop_price := some (pr * (1 - cfg.trailing_stop_pct)) }, ?_, ht, le_of_lt hup2⟩
              show dictGet (dictSet s1.active_stops sym _) sym = _
              exact dictGet_dictSet_self _ _ _
          · rw [if_neg hup2]
            split
            · rcases close_position_stops_cases cfg _ sym d pr TRAILING_STOP with
                h2 | h2
              · rw [h2]
                refine Or.inr ⟨si, ?_, ht, le_refl _⟩
                show dictGet (dictSet s1.active_stops sym si) sym = _
                exact dictGet_dictSet_self _ _ _
              · exact Or.inl h2
            · refine Or.inr ⟨si, ?_, ht, le_refl _⟩
              show dictGet (dictSet s1.active_stops sym si) sym = _
              exact dictGet_dictSet_self _ _ _

unseal Rat.mul Rat.sub in
/-- Witness for C7: one stop pass over a concrete state with an active
trailing stop at price 107 and a day price of 110 (no ratchet, no trigger). -/
theorem C7_witness :
    dictGet (check_stop_losses cfg0 stT7 0 110 50).active_stops UNG = none ∨
    ∃ si2, dictGet (check_stop_losses cfg0 stT7 0 110 50).active_stops UNG = some si2 ∧
      si2.trailing_stop = true ∧
      siT7.trailing_stop_price.getD 0 ≤ si2.trailing_stop_price.getD 0 :=
  C7_theorem cfg0 stT7 0 110 50 UNG siT7 (by decide) (by decide) (by decide)


theorem dictSet_dictSet_self (l : List (String × α)) (k : String) (v w : α) :
    dictSet (dictSet l k v) k w = dictSet l k w := by
  cases hc : dictContains l k with
  | true =>
    rw [dictSet_of_contains l k v hc]
    have hc2 : dictContains (l.map (fun p => if p.1 = k then (k, v) else p)) k = true := by
      rw [dictContains_eq_isSome, dictGet_replaceMap_self l k v hc]
      rfl
    rw [dictSet_of_contains _ k w hc2, dictSet_of_contains l k w hc]
    have key : ∀ m : List (String × α),
        (m.map (fun p => if p.1 = k then (k, v) else p)).map (fun p => if p.1 = k then (k, w) else p) = m.map (fun p => if p.1 = k then (k, w) else p) := by
      intro m
      induction m with
      | nil => rfl
      | cons a t ih =>
        simp only [List.map_cons]
        rw [ih]
        by_cases hp : a.1 = k
        · simp [hp]
        · simp [hp]
    exact key l
  | false =>
    have hn : dictGet l k = none := dictGet_eq_none_of_not_contains l k hc
    have hne : ∀ p ∈ l, p.1 ≠ k := (dictGet_eq_none_iff l k).mp hn
    rw [dictSet_of_not_contains l k v hc]
    have hc2 : dictContains (l ++ [(k, v)]) k = true := by
      rw [dictContains_eq_isSome, dictGet_append_single_self l k v hn]
      rfl
    rw [dictSet_of_contains _ k w hc2, dictSet_of_not_contains l k w hc]
    simp only [List.map_append, List.map_cons, List.map_nil]
    have h1 : ∀ m : List (String × α), (∀ p ∈ m, p.1 ≠ k) →
        m.map (fun p => if p.1 = k then (k, w) else p) = m := by
      intro m hm
      induction m with
      | nil => rfl
      | cons a t ih =>
        simp only [List.map_cons]
        rw [if_neg (hm a (List.mem_cons_self a t)), ih (fun p hp => hm p (List.mem_cons_of_mem a hp))]
    rw [h1 l hne]
    simp

theorem stop_checks_eq_spec_order (cfg : Config) (st : EngineState) (d : ℕ)
    (sym : String) (si : StopInfo) (pr : ℚ)
    (hlive : dictGet st.active_stops sym = some si)
    (hp : 0 < pr) (hpct : 0 < cfg.trailing_stop_pct) :
    stop_checks_at cfg d st sym si pr = stop_eval_spec_order cfg d st sym si pr := by
  have hnotrig : ¬ (pr ≤ pr * (1 - cfg.trailing_stop_pct)) := by
    intro hle
    nlinarith [mul_pos hp hpct]
  unfold stop_checks_at stop_eval_spec_order
  by_cases h1 : pr ≤ si.stop_loss_price
  · rw [if_pos h1, if_pos h1]
  · rw [if_neg h1, if_neg h1]
    by_cases h2 : pr ≥ si.take_profit_price
    · rw [if_pos h2, if_pos h2]
    · rw [if_neg h2, if_neg h2]
      dsimp only
      by_cases ht : si.trailing_stop = true
      · rw [if_neg (by rw [ht]; simp), if_pos ht]
        simp only [hlive]
        rw [if_pos ht]
      · rw [if_neg ht]
        by_cases hpf : (pr - si.entry_price) / si.entry_price ≥ 1 / 10
        · rw [if_pos ⟨ht, hpf⟩, if_pos hpf]
          unfold activate_trailing_stop
          simp only [hlive]
          simp only [dictGet_dictSet_self]
          simp only [if_true]
          unfold update_trailing_stop
          simp only [dictGet_dictSet_self]
          simp only [Option.getD_some]
          rw [if_neg (lt_irrefl _)]
          dsimp only
          simp only [Option.getD_some]
          rw [if_neg hnotrig]
          rw [dictSet_dictSet_self]
        · rw [if_neg (fun hc => hpf hc.2), if_neg hpf]
          simp only [hlive]
          rw [if_neg ht]

/-- C5: stop-evaluation precedence. For an instrument with an open position, a
resolvable positive price and a live stop record equal to the loop's snapshot,
one iteration of the stop loop is extensionally equal to evaluating the checks
in the specified order stop-loss breach, take-profit breach, trailing-stop
breach (only if already activated), then trailing-stop activation; in
particular a price at or below the stop-loss level always closes with reason
STOP_LOSS even if it also breaches the take-profit level. -/
theorem C5_theorem (cfg : Config) (st : EngineState) (d : ℕ) (up kp pr : ℚ)
    (sym : String) (si : StopInfo)
    (hpos : dictContains st.positions sym = true)
    (hprice : stop_price_for cfg sym up kp = some pr)
    (hlive : dictGet st.active_stops sym = some si)
    (hp : 0 < pr) (hpct : 0 < cfg.trailing_stop_pct) :
    check_stop_item cfg d up kp st (sym, si) =
      stop_eval_spec_order cfg d st sym si pr ∧
    (pr ≤ si.stop_loss_price →
      check_stop_item cfg d up kp st (sym, si) =
        close_position cfg st sym d pr STOP_LOSS) := by
  have hred : check_stop_item cfg d up kp st (sym, si) =
      stop_checks_at cfg d st sym si pr := by
    rw [check_stop_item_decomp]
    dsimp only
    rw [if_neg (by simp [hpos])]
    simp only [hprice]
  constructor
  · rw [hred]
    exact stop_checks_eq_spec_order cfg st d sym si pr hlive hp hpct
  · intro hsl
    rw [hred]
    unfold stop_checks_at
    rw [if_pos hsl]

unseal Rat.add Rat.mul Rat.sub Rat.inv in
/-- Witness for C5: one stop iteration on the concrete trailing-stop state at
price 110 agrees with the spec-ordered evaluation, and the stop-loss-first
consequence holds vacuously since 110 is above the stop level. -/
theorem C5_witness :
    check_stop_item cfg0 0 110 50 stT7 (UNG, siT7) =
      stop_eval_spec_order cfg0 0 stT7 UNG siT7 110 ∧
    (110 ≤ siT7.stop_loss_price →
      check_stop_item cfg0 0 110 50 stT7 (UNG, siT7) =
        close_position cfg0 stT7 UNG 0 110 STOP_LOSS) :=
  C5_theorem cfg0 stT7 0 110 50 110 UNG siT7 (by decide) (by decide) (by decide)
    (by decide) (by decide)

end NatgasTrader
